import Mathlib

/-!
Verification of the MCPWorld computer-use controller core
(`computer_use_demo`): the canonical conversation model, the two provider
adapters, and the sampling-loop policies (prompt caching, image retention,
refusal recovery, loop detection, tool dispatch).

Python dictionaries and JSON payloads are modelled by the `Json` type below;
the Python standard library functions `json.dumps` and `json.loads` are
modelled by the executable `Json.dumps` / `Json.loads` defined here (minimal
escaping: quote and backslash, integer numbers), together with a proof that
`loads` inverts `dumps`.
-/

namespace MCPWorld

/-- JSON values / Python objects carried in message payloads.
Numbers are modelled as integers (the payloads the controller produces
carry only integral numbers). -/
inductive Json where
  | null : Json
  | bool (b : Bool) : Json
  | num (n : Int) : Json
  | str (s : String) : Json
  | arr (xs : List Json) : Json
  | obj (kvs : List (String × Json)) : Json

/-- Lookup in an association list, first match wins (Python `dict` lookup;
the dictionaries built by the code have unique keys). -/
def lookupKv (kvs : List (String × Json)) (k : String) : Option Json :=
  match kvs with
  | [] => none
  | (k2, v) :: rest => if k2 = k then some v else lookupKv rest k

/-- Python `d.get(key)`: `some` when the receiver is a dict holding the key,
`none` otherwise. -/
def Json.get (j : Json) (k : String) : Option Json :=
  match j with
  | .obj kvs => lookupKv kvs k
  | _ => none

/-- Python truthiness of a JSON value: empty containers, empty strings,
zero, `False` and `None` are falsy. -/
def Json.truthy (j : Json) : Bool :=
  match j with
  | .null => false
  | .bool b => b
  | .num n => n != 0
  | .str s => s ≠ ""
  | .arr xs => !xs.isEmpty
  | .obj kvs => !kvs.isEmpty

/-- Python `d.get(key, default)`. -/
def Json.getD (j : Json) (k : String) (d : Json) : Json :=
  (j.get k).getD d

/-- Python `dict.__setitem__`: replace the value at an existing key in
place, else append the new binding (insertion order preserved). -/
def setKv (kvs : List (String × Json)) (k : String) (v : Json) :
    List (String × Json) :=
  match kvs with
  | [] => [(k, v)]
  | (k2, w) :: rest =>
      if k2 = k then (k2, v) :: rest else (k2, w) :: setKv rest k v

/-! ### Serialization (`json.dumps`, default separators) -/

/-- Decimal digit character for `d < 10`. -/
def digitCharOf (d : Nat) : Char := Char.ofNat (48 + d)

/-- Decimal digits of a natural number, most significant first. -/
def natToDigits (n : Nat) : List Char :=
  if n < 10 then [digitCharOf n]
  else natToDigits (n / 10) ++ [digitCharOf (n % 10)]
  decreasing_by exact Nat.div_lt_self (by omega) (by omega)

/-- Characters of the decimal representation of an integer. -/
def intToChars (n : Int) : List Char :=
  if n < 0 then '-' :: natToDigits n.natAbs else natToDigits n.natAbs

/-- String-body escaping used by the model of `json.dumps`: backslash and
double quote are escaped, all other characters pass through. -/
def escapeChars : List Char → List Char
  | [] => []
  | c :: cs =>
      if c = '"' || c = '\\' then '\\' :: c :: escapeChars cs
      else c :: escapeChars cs

mutual

/-- Characters of the serialized form of a JSON value, mirroring
`json.dumps` with its default separators (`", "` and `": "`). -/
def jdump : Json → List Char
  | .null => ['n', 'u', 'l', 'l']
  | .num n => intToChars n
  | .bool true => "true".toList
  | .bool false => "false".toList
  | .str s => '"' :: (escapeChars s.toList ++ ['"'])
  | .arr [] => ['[', ']']
  | .arr (x :: xs) => '[' :: (jdump x ++ jdumpArrTail xs ++ [']'])
  | .obj [] => ['{', '}']
  | .obj (kv :: kvs) =>
      '{' :: (jdumpObjItem kv ++ jdumpObjTail kvs ++ ['}'])

/-- `", "`-separated continuation of an array body. -/
def jdumpArrTail : List Json → List Char
  | [] => []
  | y :: ys => ',' :: ' ' :: (jdump y ++ jdumpArrTail ys)

/-- One `"key": value` member of an object body. -/
def jdumpObjItem : String × Json → List Char
  | (k, v) => '"' :: (escapeChars k.toList ++ ['"', ':', ' '] ++ jdump v)

/-- `", "`-separated continuation of an object body. -/
def jdumpObjTail : List (String × Json) → List Char
  | [] => []
  | kv :: kvs => ',' :: ' ' :: (jdumpObjItem kv ++ jdumpObjTail kvs)

end

/-- Model of Python `json.dumps`. -/
def Json.dumps (j : Json) : String := String.mk (jdump j)

/-! ### Parsing (`json.loads`) -/

def isWsChar (c : Char) : Bool :=
  c = ' ' || c = '\t' || c = '\n' || c = '\r'

def isDigitChar (c : Char) : Bool := 48 ≤ c.toNat && c.toNat ≤ 57

/-- Drop leading JSON whitespace. -/
def skipWs : List Char → List Char
  | [] => []
  | c :: cs => if isWsChar c then skipWs cs else c :: cs

/-- Consume an expected literal tail, e.g. `ull` after `n`. -/
def expectChars : List Char → List Char → Option (List Char)
  | [], input => some input
  | _ :: _, [] => none
  | e :: es, c :: cs => if c = e then expectChars es cs else none

/-- Parse a string body up to the closing quote, undoing `escapeChars`. -/
def parseStringBody : List Char → Option (List Char × List Char)
  | [] => none
  | c :: cs =>
      if c = '"' then some ([], cs)
      else if c = '\\' then
        match cs with
        | [] => none
        | e :: cs2 =>
            if e = '"' || e = '\\' then
              (parseStringBody cs2).map (fun p => (e :: p.1, p.2))
            else none
      else (parseStringBody cs).map (fun p => (c :: p.1, p.2))

/-- Maximal run of decimal digits. -/
def spanDigits : List Char → List Char × List Char
  | [] => ([], [])
  | c :: cs =>
      if isDigitChar c then
        let p := spanDigits cs
        (c :: p.1, p.2)
      else ([], c :: cs)

/-- Value of a digit list, most significant first. -/
def digitsToNat : List Char → Nat → Nat
  | [], acc => acc
  | c :: cs, acc => digitsToNat cs (acc * 10 + (c.toNat - 48))

/-- Parse a (possibly negative) integer literal. -/
def parseIntChars : List Char → Option (Int × List Char)
  | [] => none
  | c :: cs =>
      if c = '-' then
        match spanDigits cs with
        | ([], _) => none
        | (ds, rest2) => some (-(Int.ofNat (digitsToNat ds 0)), rest2)
      else
        match spanDigits (c :: cs) with
        | ([], _) => none
        | (ds, rest2) => some (Int.ofNat (digitsToNat ds 0), rest2)

/-- Fuel-indexed JSON value parser; `Json.loads` supplies sufficient fuel.
Array and object bodies are parsed one element at a time, re-entering the
parser on a reconstructed `[`/`{` head for the remaining elements, which
keeps the definition structurally recursive on the fuel (a trailing comma
before a closer is therefore tolerated, unlike CPython's parser; no input
this development evaluates exercises that corner). -/
def parseVal : Nat → List Char → Option (Json × List Char)
  | 0, _ => none
  | fuel + 1, input =>
      match skipWs input with
      | [] => none
      | c :: cs =>
          if c = '"' then
            (parseStringBody cs).map (fun p => (Json.str (String.mk p.1), p.2))
          else if c = '{' then
            match skipWs cs with
            | '}' :: rest => some (Json.obj [], rest)
            | '"' :: cs2 =>
                match parseStringBody cs2 with
                | none => none
                | some (kchars, r1) =>
                    match skipWs r1 with
                    | ':' :: r2 =>
                        match parseVal fuel (skipWs r2) with
                        | none => none
                        | some (v, r3) =>
                            match skipWs r3 with
                            | ',' :: r4 =>
                                match parseVal fuel ('{' :: r4) with
                                | some (Json.obj kvs, r5) =>
                                    some
                                      (Json.obj ((String.mk kchars, v) :: kvs),
                                        r5)
                                | _ => none
                            | '}' :: r4 =>
                                some (Json.obj [(String.mk kchars, v)], r4)
                            | _ => none
                    | _ => none
            | _ => none
          else if c = '[' then
            match skipWs cs with
            | ']' :: rest => some (Json.arr [], rest)
            | other =>
                match parseVal fuel other with
                | none => none
                | some (v, r1) =>
                    match skipWs r1 with
                    | ',' :: r2 =>
                        match parseVal fuel ('[' :: r2) with
                        | some (Json.arr vs, r3) =>
                            some (Json.arr (v :: vs), r3)
                        | _ => none
                    | ']' :: r2 => some (Json.arr [v], r2)
                    | _ => none
          else if c = 't' then
            (expectChars ['r', 'u', 'e'] cs).map (fun r => (Json.bool true, r))
          else if c = 'f' then
            (expectChars ['a', 'l', 's', 'e'] cs).map
              (fun r => (Json.bool false, r))
          else if c = 'n' then
            (expectChars ['u', 'l', 'l'] cs).map (fun r => (Json.null, r))
          else
            (parseIntChars (c :: cs)).map (fun p => (Json.num p.1, p.2))

/-- Model of Python `json.loads`: parse the whole input, requiring only
trailing whitespace after the value. -/
def Json.loads (s : String) : Option Json :=
  match parseVal (s.length + 1) s.toList with
  | some (v, rest) => if skipWs rest = [] then some v else none
  | none => none

example : Json.loads "null" = some Json.null := rfl
example : Json.loads " [1, 2] " = some (Json.arr [Json.num 1, Json.num 2]) :=
  rfl
example :
    Json.loads "\x7b\"a\": 1\x7d" = some (Json.obj [("a", Json.num 1)]) :=
  rfl
example : Json.loads "-42" = some (Json.num (-42)) := rfl

/-! ### `loads` inverts `dumps` -/

theorem digitCharOf_toNat {d : Nat} (h : d < 10) :
    (digitCharOf d).toNat = 48 + d := by
  have hd : d = 0 ∨ d = 1 ∨ d = 2 ∨ d = 3 ∨ d = 4 ∨ d = 5 ∨ d = 6 ∨ d = 7 ∨
      d = 8 ∨ d = 9 := by omega
  rcases hd with rfl | rfl | rfl | rfl | rfl | rfl | rfl | rfl | rfl | rfl <;>
    decide

theorem isDigitChar_digitCharOf {d : Nat} (h : d < 10) :
    isDigitChar (digitCharOf d) = true := by
  have hd : d = 0 ∨ d = 1 ∨ d = 2 ∨ d = 3 ∨ d = 4 ∨ d = 5 ∨ d = 6 ∨ d = 7 ∨
      d = 8 ∨ d = 9 := by omega
  rcases hd with rfl | rfl | rfl | rfl | rfl | rfl | rfl | rfl | rfl | rfl <;>
    decide

theorem natToDigits_ne_nil (n : Nat) : natToDigits n ≠ [] := by
  rw [natToDigits]
  split
  · simp
  · simp

theorem natToDigits_all_digits (n : Nat) :
    ∀ c ∈ natToDigits n, isDigitChar c = true := by
  induction n using Nat.strong_induction_on with
  | _ n ih =>
    rw [natToDigits]
    split
    · next h =>
      intro c hc
      simp only [List.mem_singleton] at hc
      subst hc
      exact isDigitChar_digitCharOf h
    · next h =>
      intro c hc
      rcases List.mem_append.mp hc with h1 | h2
      · exact ih (n / 10) (Nat.div_lt_self (by omega) (by omega)) c h1
      · simp only [List.mem_singleton] at h2
        subst h2
        exact isDigitChar_digitCharOf (Nat.mod_lt _ (by omega))

theorem digitsToNat_append (a : Nat) (ds es : List Char) :
    digitsToNat (ds ++ es) a = digitsToNat es (digitsToNat ds a) := by
  induction ds generalizing a with
  | nil => rfl
  | cons c cs ih => rw [List.cons_append, digitsToNat, digitsToNat, ih]

theorem digitsToNat_natToDigits (n : Nat) :
    digitsToNat (natToDigits n) 0 = n := by
  induction n using Nat.strong_induction_on with
  | _ n ih =>
    rw [natToDigits]
    split
    · next h =>
      rw [digitsToNat, digitsToNat, digitCharOf_toNat h]
      omega
    · next h =>
      rw [digitsToNat_append,
        ih (n / 10) (Nat.div_lt_self (by omega) (by omega)), digitsToNat,
        digitsToNat, digitCharOf_toNat (Nat.mod_lt n (by omega))]
      omega

/-- Characters that may legitimately follow a serialized value. -/
def restOk : List Char → Prop
  | [] => True
  | c :: _ => c = ',' ∨ c = ']' ∨ c = '}'

theorem restOk_not_digit {rest : List Char} (h : restOk rest) :
    rest = [] ∨ ∃ c cs, rest = c :: cs ∧ isDigitChar c = false := by
  match rest with
  | [] => exact Or.inl rfl
  | c :: cs =>
    refine Or.inr ⟨c, cs, rfl, ?_⟩
    rcases h with h | h | h <;> subst h <;> rfl

theorem spanDigits_stop {rest : List Char} (h : restOk rest) :
    spanDigits rest = ([], rest) := by
  rcases restOk_not_digit h with rfl | ⟨c, cs, rfl, hc⟩
  · rfl
  · simp [spanDigits, hc]

theorem spanDigits_run {ds : List Char} (hds : ∀ c ∈ ds, isDigitChar c = true)
    {rest : List Char} (h : restOk rest) :
    spanDigits (ds ++ rest) = (ds, rest) := by
  induction ds with
  | nil => simpa using spanDigits_stop h
  | cons c cs ih =>
    have hc : isDigitChar c = true := hds c (by simp)
    have hcs : ∀ x ∈ cs, isDigitChar x = true := fun x hx => hds x (by simp [hx])
    simp [spanDigits, hc, ih hcs]

theorem expectChars_append (es rest : List Char) :
    expectChars es (es ++ rest) = some rest := by
  induction es with
  | nil => rfl
  | cons e es ih => simp [expectChars, ih]

theorem parseStringBody_escape (s rest : List Char) :
    parseStringBody (escapeChars s ++ '"' :: rest) = some (s, rest) := by
  induction s with
  | nil =>
    show parseStringBody ([] ++ '"' :: rest) = some ([], rest)
    rw [List.nil_append, parseStringBody.eq_def]
    simp
  | cons c cs ih =>
    by_cases hc : c = '"' ∨ c = '\\'
    · have hesc : (decide (c = '"') || decide (c = '\\')) = true := by
        rcases hc with h | h <;> simp [h]
      rw [escapeChars]
      simp only [hesc, if_true, List.cons_append, if_pos]
      rw [parseStringBody.eq_def]
      simp [hesc, ih]
    · have h1 : ¬(c = '"') := fun h => hc (Or.inl h)
      have h2 : ¬(c = '\\') := fun h => hc (Or.inr h)
      have hesc : (decide (c = '"') || decide (c = '\\')) = false := by
        simp [h1, h2]
      rw [escapeChars]
      simp only [hesc, if_false, List.cons_append, Bool.false_eq_true]
      rw [parseStringBody.eq_def]
      simp [h1, h2, ih]

theorem skipWs_not_ws (c : Char) (h : isWsChar c = false) (cs : List Char) :
    skipWs (c :: cs) = c :: cs := by
  simp [skipWs, h]

theorem skipWs_all_ws {ws : List Char} (h : ∀ w ∈ ws, isWsChar w = true)
    (l : List Char) : skipWs (ws ++ l) = skipWs l := by
  induction ws with
  | nil => rfl
  | cons w ws ih =>
    have hw : isWsChar w = true := h w (by simp)
    simp only [List.cons_append, skipWs, hw, if_pos]
    exact ih (fun x hx => h x (by simp [hx]))

theorem isDigitChar_not_special {c : Char} (h : isDigitChar c = true) :
    isWsChar c = false ∧ c ≠ '"' ∧ c ≠ '{' ∧ c ≠ '[' ∧ c ≠ 't' ∧ c ≠ 'f' ∧
      c ≠ 'n' ∧ c ≠ '-' ∧ c ≠ ']' ∧ c ≠ '}' ∧ c ≠ ',' := by
  have hn : 48 ≤ c.toNat ∧ c.toNat ≤ 57 := by
    simpa [isDigitChar] using h
  have ne : ∀ d : Char, ¬(48 ≤ d.toNat ∧ d.toNat ≤ 57) → c ≠ d := by
    intro d hd hEq
    subst hEq
    exact hd hn
  have hws : isWsChar c = false := by
    have w1 : c ≠ ' ' := ne _ (by decide)
    have w2 : c ≠ '\t' := ne _ (by decide)
    have w3 : c ≠ '\n' := ne _ (by decide)
    have w4 : c ≠ '\r' := ne _ (by decide)
    simp [isWsChar, w1, w2, w3, w4]
  exact ⟨hws, ne _ (by decide), ne _ (by decide), ne _ (by decide),
    ne _ (by decide), ne _ (by decide), ne _ (by decide), ne _ (by decide),
    ne _ (by decide), ne _ (by decide), ne _ (by decide)⟩

/-- The first character of a serialized value is never whitespace nor a
closing delimiter. -/
theorem jdump_head (v : Json) :
    ∃ c t, jdump v = c :: t ∧ isWsChar c = false ∧ c ≠ ']' ∧ c ≠ '}' ∧
      c ≠ ',' := by
  cases v with
  | null => exact ⟨'n', _, by rw [jdump], rfl, by decide, by decide, by decide⟩
  | bool b =>
    cases b with
    | true =>
      exact ⟨'t', ['r', 'u', 'e'], by rw [jdump]; rfl, rfl, by decide,
        by decide, by decide⟩
    | false =>
      exact ⟨'f', ['a', 'l', 's', 'e'], by rw [jdump]; rfl, rfl,
        by decide, by decide, by decide⟩
  | num n =>
    rw [jdump]
    unfold intToChars
    split
    · exact ⟨'-', _, rfl, rfl, by decide, by decide, by decide⟩
    · obtain ⟨c, t, hct⟩ : ∃ c t, natToDigits n.natAbs = c :: t := by
        cases h : natToDigits n.natAbs with
        | nil => exact absurd h (natToDigits_ne_nil _)
        | cons c t => exact ⟨c, t, rfl⟩
      have hc : isDigitChar c = true :=
        natToDigits_all_digits n.natAbs c (by rw [hct]; simp)
      obtain ⟨h1, _, _, _, _, _, _, _, h2, h3, h4⟩ :=
        isDigitChar_not_special hc
      exact ⟨c, t, hct, h1, h2, h3, h4⟩
  | str s =>
    exact ⟨'"', _, by rw [jdump], rfl, by decide, by decide, by decide⟩
  | arr xs =>
    cases xs with
    | nil => exact ⟨'[', _, by rw [jdump], rfl, by decide, by decide, by decide⟩
    | cons x xs =>
      exact ⟨'[', _, by rw [jdump], rfl, by decide, by decide, by decide⟩
  | obj kvs =>
    cases kvs with
    | nil => exact ⟨'{', _, by rw [jdump], rfl, by decide, by decide, by decide⟩
    | cons kv kvs =>
      exact ⟨'{', _, by rw [jdump], rfl, by decide, by decide, by decide⟩

theorem string_mk_toList (s : String) : String.mk s.toList = s := rfl

theorem parseVal_null (g : Nat) (rest : List Char) :
    parseVal (g + 1) (['n', 'u', 'l', 'l'] ++ rest) = some (Json.null, rest) :=
  rfl

theorem parseVal_true (g : Nat) (rest : List Char) :
    parseVal (g + 1) (['t', 'r', 'u', 'e'] ++ rest) =
      some (Json.bool true, rest) := rfl

theorem parseVal_false (g : Nat) (rest : List Char) :
    parseVal (g + 1) (['f', 'a', 'l', 's', 'e'] ++ rest) =
      some (Json.bool false, rest) := rfl

theorem parseVal_arrNil (g : Nat) (rest : List Char) :
    parseVal (g + 1) ('[' :: ']' :: rest) = some (Json.arr [], rest) := rfl

theorem parseVal_objNil (g : Nat) (rest : List Char) :
    parseVal (g + 1) ('{' :: '}' :: rest) = some (Json.obj [], rest) := rfl

theorem parseVal_str (g : Nat) (s : String) (rest : List Char) :
    parseVal (g + 1) ('"' :: (escapeChars s.toList ++ '"' :: rest)) =
      some (Json.str s, rest) := by
  rw [parseVal]
  rw [skipWs_not_ws '"' (by decide)]
  simp only [reduceIte, parseStringBody_escape]
  rfl

theorem parseVal_num (g : Nat) (n : Int) {rest : List Char} (h : restOk rest) :
    parseVal (g + 1) (intToChars n ++ rest) = some (Json.num n, rest) := by
  have hdig : ∀ c ∈ natToDigits n.natAbs, isDigitChar c = true :=
    natToDigits_all_digits n.natAbs
  have hspan : spanDigits (natToDigits n.natAbs ++ rest) =
      (natToDigits n.natAbs, rest) := spanDigits_run hdig h
  obtain ⟨c, t, hct⟩ : ∃ c t, natToDigits n.natAbs = c :: t := by
    cases hnd : natToDigits n.natAbs with
    | nil => exact absurd hnd (natToDigits_ne_nil _)
    | cons c t => exact ⟨c, t, rfl⟩
  by_cases hneg : n < 0
  · rw [intToChars, if_pos hneg, List.cons_append, parseVal,
      skipWs_not_ws '-' (by decide)]
    dsimp only
    rw [if_neg (by decide), if_neg (by decide), if_neg (by decide),
      if_neg (by decide), if_neg (by decide), if_neg (by decide),
      parseIntChars, if_pos rfl, hspan, hct]
    simp only [← hct, digitsToNat_natToDigits]
    have hofn : -(Int.ofNat n.natAbs) = n := by
      simp only [Int.ofNat_eq_natCast]
      omega
    rw [hofn]
    rfl
  · rw [intToChars, if_neg hneg, hct, List.cons_append, parseVal,
      skipWs_not_ws c (isDigitChar_not_special (hdig c (by rw [hct]; simp))).1]
    obtain ⟨hws, h1, h2, h3, h4, h5, h6, h7, h8, h9, h10⟩ :=
      isDigitChar_not_special (hdig c (by rw [hct]; simp))
    dsimp only
    rw [if_neg h1, if_neg h2, if_neg h3, if_neg h4, if_neg h5, if_neg h6,
      parseIntChars, if_neg h7, ← List.cons_append, ← hct, hspan, hct]
    simp only [← hct, digitsToNat_natToDigits]
    have hofn : Int.ofNat n.natAbs = n := by
      simp only [Int.ofNat_eq_natCast]
      omega
    rw [hofn]
    rfl

/-- Round-trip statement for arrays with at least one element, allowing
whitespace after the opening bracket (as produced after a separating
comma). -/
def ArrP (f : Nat) : Prop :=
  ∀ ws x xs rest,
    (∀ w ∈ ws, isWsChar w = true) →
    ('[' :: ws ++ jdump x ++ jdumpArrTail xs ++ ']' :: rest).length < f →
    restOk rest →
    parseVal f ('[' :: ws ++ jdump x ++ jdumpArrTail xs ++ ']' :: rest) =
      some (Json.arr (x :: xs), rest)

/-- Round-trip statement for objects with at least one member. -/
def ObjP (f : Nat) : Prop :=
  ∀ ws kv kvs rest,
    (∀ w ∈ ws, isWsChar w = true) →
    ('{' :: ws ++ jdumpObjItem kv ++ jdumpObjTail kvs ++ '}' :: rest).length
      < f →
    restOk rest →
    parseVal f ('{' :: ws ++ jdumpObjItem kv ++ jdumpObjTail kvs ++
        '}' :: rest) =
      some (Json.obj (kv :: kvs), rest)

/-- Round-trip statement for arbitrary values. -/
def MainP (f : Nat) : Prop :=
  ∀ v rest,
    (jdump v ++ rest).length < f →
    restOk rest →
    parseVal f (jdump v ++ rest) = some (v, rest)

theorem jdumpArrTail_nil : jdumpArrTail [] = [] := by rw [jdumpArrTail]

theorem jdumpArrTail_cons (y : Json) (ys : List Json) :
    jdumpArrTail (y :: ys) = ',' :: ' ' :: (jdump y ++ jdumpArrTail ys) := by
  rw [jdumpArrTail]

theorem jdumpObjTail_nil : jdumpObjTail [] = [] := by rw [jdumpObjTail]

theorem jdumpObjTail_cons (kv : String × Json) (kvs : List (String × Json)) :
    jdumpObjTail (kv :: kvs) = ',' :: ' ' :: (jdumpObjItem kv ++
      jdumpObjTail kvs) := by
  rw [jdumpObjTail]

theorem jdumpObjItem_eq (k : String) (v : Json) :
    jdumpObjItem (k, v) =
      '"' :: (escapeChars k.toList ++ ['"', ':', ' '] ++ jdump v) := by
  rw [jdumpObjItem]

theorem restOk_arrTail (xs : List Json) (rest : List Char) :
    restOk (jdumpArrTail xs ++ ']' :: rest) := by
  cases xs with
  | nil => rw [jdumpArrTail_nil, List.nil_append]; exact Or.inr (Or.inl rfl)
  | cons y ys => rw [jdumpArrTail_cons, List.cons_append]; exact Or.inl rfl

theorem restOk_objTail (kvs : List (String × Json)) (rest : List Char) :
    restOk (jdumpObjTail kvs ++ '}' :: rest) := by
  cases kvs with
  | nil => rw [jdumpObjTail_nil, List.nil_append]; exact Or.inr (Or.inr rfl)
  | cons kv kvs => rw [jdumpObjTail_cons, List.cons_append]; exact Or.inl rfl

theorem ws_singleton_space : ∀ w ∈ [' '], isWsChar w = true := by
  intro w hw
  rw [List.mem_singleton] at hw
  subst hw
  rfl

theorem parseVal_round : ∀ f, ArrP f ∧ ObjP f ∧ MainP f := by
  intro f
  induction f using Nat.strong_induction_on with
  | _ f ih =>
    have harr : ArrP f := by
      intro ws x xs rest hws hlen hrest
      have hf : 1 ≤ f := by
        simp only [List.length_append, List.length_cons] at hlen
        omega
      obtain ⟨g, rfl⟩ : ∃ g, f = g + 1 := ⟨f - 1, by omega⟩
      obtain ⟨hc, ht, hdx, hcws, hc1, hc2, hc3⟩ := jdump_head x
      rw [parseVal]
      simp only [List.cons_append, List.nil_append, List.append_assoc]
      rw [skipWs_not_ws '[' (by decide)]
      dsimp only
      rw [if_neg (by decide), if_neg (by decide), if_pos rfl,
        skipWs_all_ws hws, hdx]
      simp only [List.cons_append]
      rw [skipWs_not_ws hc hcws]
      have hlen2 : (jdump x ++ (jdumpArrTail xs ++ ']' :: rest)).length
          < g := by
        simp only [List.length_append, List.length_cons] at hlen ⊢
        omega
      have hmain := (ih g (by omega)).2.2 x (jdumpArrTail xs ++ ']' :: rest)
        hlen2 (restOk_arrTail xs rest)
      rw [hdx] at hmain
      simp only [List.cons_append] at hmain
      split
      · next r heq =>
        exact absurd (List.head_eq_of_cons_eq heq) hc1
      · next hne =>
        rw [hmain]
        dsimp only
        cases xs with
        | nil =>
          rw [jdumpArrTail_nil, List.nil_append,
            skipWs_not_ws ']' (by decide)]
          rfl
        | cons y ys =>
          rw [jdumpArrTail_cons]
          simp only [List.cons_append, List.nil_append, List.append_assoc]
          rw [skipWs_not_ws ',' (by decide)]
          have hlen3 :
              ((('[' :: [' ']) ++ jdump y ++ jdumpArrTail ys) ++
                (']' :: rest)).length < g := by
            rw [jdumpArrTail_cons, hdx] at hlen
            simp only [List.length_append, List.length_cons,
              List.length_nil] at hlen ⊢
            omega
          have harr2 := (ih g (by omega)).1 [' '] y ys rest
            ws_singleton_space (by
              simpa only [List.append_assoc] using hlen3) hrest
          simp only [List.cons_append, List.nil_append,
            List.append_assoc] at harr2
          split
          · next r2 heq =>
            obtain rfl : r2 = ' ' :: (jdump y ++ (jdumpArrTail ys ++
                ']' :: rest)) := (List.tail_eq_of_cons_eq heq).symm
            rw [harr2]
          · next r2 heq =>
            exact absurd (List.head_eq_of_cons_eq heq) (by decide)
          · next hne1 hne2 =>
            exact (hne1 _ rfl).elim
    have hobj : ObjP f := by
      intro ws kv kvs rest hws hlen hrest
      obtain ⟨k, v⟩ := kv
      have hf : 1 ≤ f := by
        simp only [List.length_append, List.length_cons] at hlen
        omega
      obtain ⟨g, rfl⟩ : ∃ g, f = g + 1 := ⟨f - 1, by omega⟩
      obtain ⟨hc, ht, hdv, hcws, hc1, hc2, hc3⟩ := jdump_head v
      rw [parseVal]
      simp only [List.cons_append, List.nil_append, List.append_assoc]
      rw [skipWs_not_ws '{' (by decide)]
      dsimp only
      rw [if_neg (by decide), if_pos rfl, skipWs_all_ws hws,
        jdumpObjItem_eq]
      simp only [List.cons_append, List.nil_append, List.append_assoc]
      rw [skipWs_not_ws '"' (by decide)]
      split
      · next r heq =>
        exact absurd (List.head_eq_of_cons_eq heq) (by decide)
      · next cs2 heq =>
        obtain rfl : cs2 = escapeChars k.toList ++ ('"' :: ':' :: ' ' ::
            (jdump v ++ (jdumpObjTail kvs ++ '}' :: rest))) :=
          (List.tail_eq_of_cons_eq heq).symm
        rw [show (escapeChars k.toList ++ ('"' :: ':' :: ' ' ::
            (jdump v ++ (jdumpObjTail kvs ++ '}' :: rest)))) =
            (escapeChars k.toList ++ '"' :: (':' :: ' ' ::
            (jdump v ++ (jdumpObjTail kvs ++ '}' :: rest)))) from rfl,
          parseStringBody_escape]
        dsimp only
        rw [skipWs_not_ws ':' (by decide)]
        split
        · next r2 heq2 =>
          obtain rfl : r2 = ' ' :: (jdump v ++ (jdumpObjTail kvs ++
              '}' :: rest)) := (List.tail_eq_of_cons_eq heq2).symm
          rw [show skipWs (' ' :: (jdump v ++ (jdumpObjTail kvs ++
              '}' :: rest))) = skipWs (jdump v ++ (jdumpObjTail kvs ++
              '}' :: rest)) from rfl]
          rw [hdv]
          simp only [List.cons_append]
          rw [skipWs_not_ws hc hcws]
          have hlen2 : (jdump v ++ (jdumpObjTail kvs ++
              '}' :: rest)).length < g := by
            rw [jdumpObjItem_eq] at hlen
            simp only [List.length_append, List.length_cons] at hlen ⊢
            omega
          have hmain := (ih g (by omega)).2.2 v
            (jdumpObjTail kvs ++ '}' :: rest) hlen2 (restOk_objTail kvs rest)
          rw [hdv] at hmain
          simp only [List.cons_append] at hmain
          rw [hmain]
          dsimp only
          cases kvs with
          | nil =>
            rw [jdumpObjTail_nil, List.nil_append,
              skipWs_not_ws '}' (by decide), string_mk_toList]
            rfl
          | cons kv2 kvs2 =>
            rw [jdumpObjTail_cons]
            simp only [List.cons_append, List.nil_append, List.append_assoc]
            rw [skipWs_not_ws ',' (by decide)]
            have hlen3 :
                ((('{' :: [' ']) ++ jdumpObjItem kv2 ++ jdumpObjTail kvs2) ++
                  ('}' :: rest)).length < g := by
              rw [jdumpObjItem_eq, jdumpObjTail_cons, hdv] at hlen
              simp only [List.length_append, List.length_cons,
                List.length_nil] at hlen ⊢
              omega
            have hobj2 := (ih g (by omega)).2.1 [' '] kv2 kvs2 rest
              ws_singleton_space (by
                simpa only [List.append_assoc] using hlen3) hrest
            simp only [List.cons_append, List.nil_append,
              List.append_assoc] at hobj2
            split
            · next r3 heq3 =>
              obtain rfl : r3 = ' ' :: (jdumpObjItem kv2 ++
                  (jdumpObjTail kvs2 ++ '}' :: rest)) :=
                (List.tail_eq_of_cons_eq heq3).symm
              rw [hobj2, string_mk_toList]
            · next r3 heq3 =>
              exact absurd (List.head_eq_of_cons_eq heq3) (by decide)
            · next hne1 hne2 =>
              exact (hne1 _ rfl).elim
        · next hne1 =>
          exact (hne1 _ rfl).elim
      · next hne1 hne2 =>
        exact (hne2 _ rfl).elim
    refine ⟨harr, hobj, ?_⟩
    intro v rest hlen hrest
    obtain ⟨hc0, ht0, hdv0, _, _, _, _⟩ := jdump_head v
    have hf : 1 ≤ f := by
      rw [hdv0] at hlen
      simp only [List.length_append, List.length_cons] at hlen
      omega
    obtain ⟨g, rfl⟩ : ∃ g, f = g + 1 := ⟨f - 1, by omega⟩
    cases v with
    | null =>
      rw [show jdump Json.null = ['n', 'u', 'l', 'l'] from by rw [jdump]]
      exact parseVal_null g rest
    | bool b =>
      cases b with
      | true =>
        rw [show jdump (Json.bool true) = ['t', 'r', 'u', 'e'] from by
          rw [jdump]; rfl]
        exact parseVal_true g rest
      | false =>
        rw [show jdump (Json.bool false) = ['f', 'a', 'l', 's', 'e'] from by
          rw [jdump]; rfl]
        exact parseVal_false g rest
    | num n =>
      rw [show jdump (Json.num n) = intToChars n from by rw [jdump]]
      exact parseVal_num g n hrest
    | str s =>
      rw [show jdump (Json.str s) = '"' :: (escapeChars s.toList ++ ['"'])
          from by rw [jdump]]
      simp only [List.cons_append, List.append_assoc,
        List.singleton_append]
      exact parseVal_str g s rest
    | arr xs =>
      cases xs with
      | nil =>
        rw [show jdump (Json.arr []) = ['[', ']'] from by rw [jdump]]
        exact parseVal_arrNil g rest
      | cons x xs =>
        have h2 := harr [] x xs rest (by intro w hw; simp at hw)
          (by
            rw [show jdump (Json.arr (x :: xs)) =
                '[' :: (jdump x ++ jdumpArrTail xs ++ [']']) from by
              rw [jdump]] at hlen
            simp only [List.length_append, List.length_cons,
              List.length_nil] at hlen ⊢
            omega)
          hrest
        simp only [List.cons_append, List.nil_append,
          List.append_assoc] at h2
        rw [show jdump (Json.arr (x :: xs)) =
            '[' :: (jdump x ++ jdumpArrTail xs ++ [']']) from by rw [jdump]]
        simp only [List.cons_append, List.append_assoc,
          List.singleton_append]
        exact h2
    | obj kvs =>
      cases kvs with
      | nil =>
        rw [show jdump (Json.obj []) = ['{', '}'] from by rw [jdump]]
        exact parseVal_objNil g rest
      | cons kv kvs =>
        have h2 := hobj [] kv kvs rest (by intro w hw; simp at hw)
          (by
            rw [show jdump (Json.obj (kv :: kvs)) =
                '{' :: (jdumpObjItem kv ++ jdumpObjTail kvs ++ ['}']) from by
              rw [jdump]] at hlen
            simp only [List.length_append, List.length_cons,
              List.length_nil] at hlen ⊢
            omega)
          hrest
        simp only [List.cons_append, List.nil_append,
          List.append_assoc] at h2
        rw [show jdump (Json.obj (kv :: kvs)) =
            '{' :: (jdumpObjItem kv ++ jdumpObjTail kvs ++ ['}']) from by
          rw [jdump]]
        simp only [List.cons_append, List.append_assoc,
          List.singleton_append]
        exact h2

/-- `Json.loads` inverts `Json.dumps`: the model of the Python `json`
library round-trips every value this development serializes. -/
theorem Json.loads_dumps (v : Json) : Json.loads (Json.dumps v) = some v := by
  have hmain := (parseVal_round ((Json.dumps v).length + 1)).2.2 v []
    (by simp [Json.dumps, String.length]) trivial
  rw [List.append_nil] at hmain
  rw [Json.loads]
  rw [show (Json.dumps v).toList = jdump v from rfl]
  rw [hmain]
  rfl

/-! ## Canonical conversation model (`providers/base.py`) -/

/-- `MessageSegment` tagged union (`providers/base.py`): `TextSegment`,
`ThinkingSegment`, `ToolCallSegment`, `ToolResultSegment`. `arguments` is
`Dict[str, Any]` in the source and is modelled as `Json` (an object in
well-typed runs); `images` holds image-source dictionaries. -/
inductive Segment where
  | text (text : String) ( annotations : Option Json)
  | thinking (content : String) (signature : Option String)
  | toolCall (tool_name : String) (arguments : Json) (call_id : String)
  | toolResult (call_id : String) (output_text : Option String)
      (images : List Json) (is_error : Bool) (system_note : Option String)

/-- Token-usage counters recorded in `Message.metadata["usage"]`. -/
structure Usage where
  input_tokens : Int
  output_tokens : Int

/-- `ConversationMessage` (`providers/base.py`). Only the `"usage"` entry of
the open `metadata` dict is modelled (`metadata_usage`); the other entries
the adapters write (`beta_content_blocks`, `finish_reason`, `raw_response`)
are not referenced by any analysed property. -/
structure ConversationMessage where
  role : String
  segments : List Segment
  metadata_usage : Option Usage := none

/-! ## Anthropic-style adapter (`providers/anthropic_adapter.py`) -/

/-- Entry of a `tool_result` block's `content` list. -/
inductive TRItem where
  | text (text : String)
  | image (source : Json)

/-- `tool_result` block `content`: a plain string or a list of entries. -/
inductive TRContent where
  | str (s : String)
  | list (items : List TRItem)

/-- Dict-form content blocks exchanged with the Anthropic backend: the
shapes produced by `_segment_to_beta_content` and consumed by
`_content_block_to_segment`. The `thinking` block's `signature` key is
present only when the encoder saw a truthy signature. -/
inductive BetaBlock where
  | text (text : String)
  | thinking (thinking : String) (signature : Option String)
  | toolUse (name : String) (input : Json) (id : String)
  | toolResult (tool_use_id : String) (content : TRContent) (is_error : Bool)

/-- `_segment_to_beta_content` (`anthropic_adapter.py`, lines 170-199). -/
def segment_to_beta_content : Segment → BetaBlock
  | .text t _ => .text t
  | .thinking c sig =>
      .thinking c
        (match sig with
          | some s => if s = "" then none else some s
          | none => none)
  | .toolCall name args cid => .toolUse name args cid
  | .toolResult cid out imgs isErr _ =>
      let textItems : List TRItem :=
        match out with
        | some t => if t = "" then [] else [.text t]
        | none => []
      let items := textItems ++ imgs.map TRItem.image
      .toolResult cid (if items.isEmpty then .str "" else .list items) isErr

/-- Texts collected from a `tool_result` content list
(`text_parts` in `_content_block_to_segment`). -/
def trTexts : List TRItem → List String
  | [] => []
  | .text t :: rest => t :: trTexts rest
  | .image _ :: rest => trTexts rest

/-- Image sources collected from a `tool_result` content list. -/
def trImages : List TRItem → List Json
  | [] => []
  | .text _ :: rest => trImages rest
  | .image s :: rest => s :: trImages rest

/-- `_content_block_to_segment` (`anthropic_adapter.py`, lines 202-235).
Total on the four modelled block shapes (the source returns `None` only for
blocks of other types). -/
def content_block_to_segment : BetaBlock → Segment
  | .text t => .text t none
  | .thinking c sig => .thinking c sig
  | .toolUse name input id =>
      .toolCall name (if input.truthy then input else Json.obj []) id
  | .toolResult tuid content isErr =>
      let textParts :=
        match content with
        | .str s => [s]
        | .list items => trTexts items
      let images :=
        match content with
        | .str _ => []
        | .list items => trImages items
      .toolResult tuid
        (if textParts.isEmpty then none
         else some (String.intercalate "\n" textParts))
        images isErr none

/-- Block of the SDK-parsed Anthropic response (`BetaMessage.content`): a
`BetaTextBlock` carries text; any other typed block reaches the canonical
model through `model_dump()` in dict form (`_response_to_params`). The
branch for a `BetaTextBlock` with empty text and type `"thinking"` is
unreachable under the SDK types (`BetaTextBlock.type` is `Literal["text"]`)
and is not modelled. -/
inductive NativeBlock where
  | textBlock (text : String)
  | otherBlock (dump : BetaBlock)

/-- `getattr(usage, counter, 0)` reads: each counter may be absent. -/
structure AnthropicUsage where
  input_tokens : Option Int
  output_tokens : Option Int

/-- The parsed Anthropic backend response (`BetaMessage`): content blocks
plus the usage attribute when present (`hasattr(..., "usage")`). -/
structure AnthropicResponse where
  content : List NativeBlock
  usage : Option AnthropicUsage

/-- `_response_to_params` (`anthropic_adapter.py`, lines 238-256): text
blocks with empty text are dropped, other blocks pass through as dicts. -/
def response_to_params : List NativeBlock → List BetaBlock
  | [] => []
  | .textBlock t :: rest =>
      (if t = "" then [] else [BetaBlock.text t]) ++ response_to_params rest
  | .otherBlock d :: rest => d :: response_to_params rest

/-- `AnthropicAdapter.parse_response` (`anthropic_adapter.py`, lines
124-145): one assistant message; `metadata["usage"]` is set only when the
response object has a `usage` attribute, with absent counters read as 0. -/
def anthropicParseResponse (resp : AnthropicResponse) : ConversationMessage :=
  let blocks := response_to_params resp.content
  { role := "assistant"
    segments := blocks.map content_block_to_segment
    metadata_usage :=
      match resp.usage with
      | some u => some ⟨u.input_tokens.getD 0, u.output_tokens.getD 0⟩
      | none => none }

/-! ## OpenAI-style adapter (`providers/openai_adapter.py`) -/

/-- Model of `str(uuid4())`: the nth fresh identifier drawn in a run.
Always non-empty, and distinct draws yield distinct strings. -/
def uuidStr (n : Nat) : String := "uuid-" ++ toString n

/-- Python `a or b` on JSON values: `a` when present and truthy, else `b`. -/
def jOr (a : Option Json) (b : Json) : Json :=
  match a with
  | some v => if v.truthy then v else b
  | none => b

/-- A string value read through Python `or`-chaining: `some` only for a
present, non-empty string (non-string truthy values, which the wire schema
does not produce for these fields, read as absent). -/
def jStrTruthy (a : Option Json) : Option String :=
  match a with
  | some (.str s) => if s = "" then none else some s
  | _ => none

/-- Python `d.get(k) is None`: absent key and JSON `null` both read as
`None`. -/
def jGetNotNull (j : Json) (k : String) : Option Json :=
  match j.get k with
  | some .null => none
  | x => x

/-- An integer read with `usage.get(key, 0)`-style defaulting (non-numeric
values, which the backends do not produce for token counters, read as the
default). -/
def jIntD (a : Option Json) (d : Int) : Int :=
  match a with
  | some (.num n) => n
  | _ => d

/-- Whitespace for Python `str.strip()` (ASCII fragment). -/
def isPyWs (c : Char) : Bool :=
  c = ' ' || c = '\t' || c = '\n' || c = '\r' || c = '\x0b' || c = '\x0c'

/-- Python `str.strip()`. -/
def pyStrip (s : String) : String :=
  String.mk (((s.toList.dropWhile isPyWs).reverse.dropWhile isPyWs).reverse)

/-- Texts of the non-empty `TextSegment`s (`_collect_text_segments` body;
`ThinkingSegment`s are skipped for OpenAI backends). -/
def openaiTextParts : List Segment → List String
  | [] => []
  | .text t _ :: rest =>
      if t = "" then openaiTextParts rest else t :: openaiTextParts rest
  | _ :: rest => openaiTextParts rest

/-- `_collect_text_segments` (`openai_adapter.py`, lines 350-361). -/
def collect_text_segments (segs : List Segment) : String :=
  pyStrip (String.intercalate "\n\n" (openaiTextParts segs))

/-- `_tool_call_to_openai` (`openai_adapter.py`, lines 400-413); the
serialization failure branch is unreachable for JSON-representable
arguments. Threads the fresh-id counter for `str(uuid4())`. -/
def tool_call_to_openai (tool_name : String) (args : Json) (cid : String)
    (ctr : Nat) : Json × Nat :=
  let args2 := if args.truthy then args else Json.obj []
  let idAndCtr := if cid = "" then (uuidStr ctr, ctr + 1) else (cid, ctr)
  (Json.obj [("id", .str idAndCtr.1), ("type", .str "function"),
    ("function", .obj [("name", .str tool_name),
      ("arguments", .str (Json.dumps args2))])],
    idAndCtr.2)

/-- The `tool_calls` list built in `_assistant_segments_to_messages`. -/
def assistantToolCalls : List Segment → Nat → List Json × Nat
  | [], ctr => ([], ctr)
  | .toolCall n a i :: rest, ctr =>
      let jc := tool_call_to_openai n a i ctr
      let js := assistantToolCalls rest jc.2
      (jc.1 :: js.1, js.2)
  | _ :: rest, ctr => assistantToolCalls rest ctr

/-- `_assistant_segments_to_messages` (`openai_adapter.py`, lines
309-324). -/
def assistant_segments_to_messages (m : ConversationMessage) (ctr : Nat) :
    List Json × Nat :=
  let text := collect_text_segments m.segments
  let tcs := assistantToolCalls m.segments ctr
  if text = "" ∧ tcs.1.isEmpty then ([], tcs.2)
  else
    ([Json.obj ([("role", .str "assistant"), ("content", .str text)] ++
        (if tcs.1.isEmpty then [] else [("tool_calls", .arr tcs.1)]))],
      tcs.2)

theorem lookupKv_sizeOf {kvs : List (String × Json)} {k : String} {v : Json}
    (h : lookupKv kvs k = some v) : sizeOf v < sizeOf (Json.obj kvs) := by
  induction kvs with
  | nil => simp [lookupKv] at h
  | cons kv rest ih =>
    obtain ⟨k2, w⟩ := kv
    rw [lookupKv] at h
    split at h
    · cases h
      simp
      omega
    · have := ih h
      simp at this ⊢
      omega

/-- `_image_to_content_block` (`openai_adapter.py`, lines 452-475). -/
def image_to_content_block (img : Json) : Option Json :=
  match himg : img with
  | Json.obj kvs =>
      match img.get "type" with
      | some (.str "base64") =>
          let media_type :=
            match img.get "media_type" with
            | some (.str s) => s
            | _ => "image/png"
          match img.get "data" with
          | some (.str d) =>
              if d = "" then none
              else
                some (Json.obj [("type", .str "image_url"),
                  ("image_url", .obj [("url",
                    .str ("data:" ++ media_type ++ ";base64," ++ d))])])
          | _ => none
      | some (.str "url") | some (.str "image_url") =>
          match jStrTruthy (img.get "url") with
          | some u =>
              some (Json.obj [("type", .str "image_url"),
                ("image_url", .obj [("url", .str u)])])
          | none =>
              match jStrTruthy (img.get "href") with
              | some u =>
                  some (Json.obj [("type", .str "image_url"),
                    ("image_url", .obj [("url", .str u)])])
              | none =>
                  match hs : lookupKv kvs "source" with
                  | some (Json.obj kvs2) =>
                      image_to_content_block (Json.obj kvs2)
                  | _ => none
      | _ =>
          match hs : lookupKv kvs "source" with
          | some (Json.obj kvs2) => image_to_content_block (Json.obj kvs2)
          | _ => none
  | _ => none
  termination_by sizeOf img
  decreasing_by
    all_goals exact lookupKv_sizeOf hs

/-- `_tool_result_to_message` (`openai_adapter.py`, lines 364-397). -/
def tool_result_to_message (cid : String) (out : Option String)
    (images : List Json) (note : Option String) (ctr : Nat) : Json × Nat :=
  let idAndCtr := if cid = "" then (uuidStr ctr, ctr + 1) else (cid, ctr)
  let textParts :=
    (match note with
      | some s => if s = "" then [] else ["<system>" ++ s ++ "</system>"]
      | none => []) ++
    (match out with
      | some t => if t = "" then [] else [t]
      | none => [])
  let textContent := pyStrip (String.intercalate "\n" textParts)
  if images.isEmpty then
    (Json.obj [("role", .str "tool"), ("tool_call_id", .str idAndCtr.1),
      ("content", .str textContent)], idAndCtr.2)
  else
    let blocks :=
      (if textContent = "" then []
       else [Json.obj [("type", .str "text"), ("text", .str textContent)]]) ++
      (images.filterMap image_to_content_block)
    let blocks2 :=
      if blocks.isEmpty then
        [Json.obj [("type", .str "text"), ("text", .str "")]]
      else blocks
    (Json.obj [("role", .str "tool"), ("tool_call_id", .str idAndCtr.1),
      ("content", .arr blocks2)], idAndCtr.2)

/-- Tool-result messages of a `user`-role message
(`_user_segments_to_messages`, second phase). -/
def userToolResultMessages : List Segment → Nat → List Json × Nat
  | [], ctr => ([], ctr)
  | .toolResult cid out imgs _ note :: rest, ctr =>
      let jm := tool_result_to_message cid out imgs note ctr
      let js := userToolResultMessages rest jm.2
      (jm.1 :: js.1, js.2)
  | _ :: rest, ctr => userToolResultMessages rest ctr

/-- `_user_segments_to_messages` (`openai_adapter.py`, lines 327-337). -/
def user_segments_to_messages (m : ConversationMessage) (ctr : Nat) :
    List Json × Nat :=
  let text := collect_text_segments m.segments
  let results := userToolResultMessages m.segments ctr
  ((if text = "" then [] else [Json.obj [("role", .str "user"),
      ("content", .str text)]]) ++ results.1,
    results.2)

/-- `_tool_role_segments` (`openai_adapter.py`, lines 340-347). -/
def tool_role_segments (m : ConversationMessage) (ctr : Nat) :
    List Json × Nat :=
  userToolResultMessages m.segments ctr

/-- `_transcript_to_openai_messages` (`openai_adapter.py`, lines
291-306). -/
def transcript_to_openai_messages : List ConversationMessage → Nat →
    List Json × Nat
  | [], ctr => ([], ctr)
  | m :: rest, ctr =>
      let enc :=
        if m.role = "assistant" then assistant_segments_to_messages m ctr
        else if m.role = "user" then user_segments_to_messages m ctr
        else if m.role = "system" then
          (let text := collect_text_segments m.segments
           if text = "" then []
           else [Json.obj [("role", .str "system"), ("content", .str text)]],
            ctr)
        else if m.role = "tool" then tool_role_segments m ctr
        else ([], ctr)
      let tail := transcript_to_openai_messages rest enc.2
      (enc.1 ++ tail.1, tail.2)

/-- `_infer_tool_name` (`openai_adapter.py`, lines 416-435): best-effort
tool-name inference from the argument key set. -/
def infer_tool_name (block : Json) : Option String :=
  let params0 := jOr (block.get "parameters")
    (jOr (block.get "arguments") (Json.obj []))
  let params :=
    match params0 with
    | .str s => (Json.loads s).getD (Json.obj [])
    | p => p
  match params with
  | .obj kvs =>
      let keys := kvs.map (fun kv => kv.1.toLower)
      if keys.contains "action" || keys.contains "coordinate" ||
          keys.contains "scroll_amount" || keys.contains "scroll_direction"
      then some "computer"
      else if keys.contains "path" && keys.contains "command" then
        some "str_replace_editor"
      else if keys.contains "command" then some "bash"
      else none
  | _ => none

/-- `_tool_block_to_segment` (`openai_adapter.py`, lines 254-288). The
source's `isinstance(tool_payload, dict)` guards are always satisfied once
`block` is a dict, since `tool_payload` is either `block` itself or the
dict under its `"function"` key. -/
def tool_block_to_segment (block : Json) (ctr : Nat) :
    Option Segment × Nat :=
  match block with
  | Json.obj _ =>
      match block.get "type" with
      | some (.str "tool_call") | some (.str "function") =>
          let tool_payload :=
            match block.get "function" with
            | some (Json.obj kvs) => Json.obj kvs
            | _ => block
          let fromKeys :=
            (jStrTruthy (block.get "name")).orElse fun _ =>
              (jStrTruthy (block.get "tool_name")).orElse fun _ =>
                jStrTruthy (tool_payload.get "name")
          let tool_name :=
            match fromKeys with
            | some n => some n
            | none => infer_tool_name tool_payload
          match tool_name with
          | none => (none, ctr)
          | some name =>
              let args0 :=
                match jGetNotNull block "arguments" with
                | some a => some a
                | none =>
                    match jGetNotNull block "parameters" with
                    | some a => some a
                    | none =>
                        some (jOr (tool_payload.get "arguments")
                          (jOr (tool_payload.get "parameters") Json.null))
              let args1 :=
                match args0 with
                | some (.str s) =>
                    match Json.loads s with
                    | some a => a
                    | none => Json.obj [("raw", .str s)]
                | some (Json.obj kvs) => Json.obj kvs
                | _ => Json.obj []
              let idAndCtr :=
                match jStrTruthy (block.get "id") with
                | some i => (i, ctr)
                | none => (uuidStr ctr, ctr + 1)
              (some (.toolCall name
                  (if args1.truthy then args1 else Json.obj []) idAndCtr.1),
                idAndCtr.2)
      | _ => (none, ctr)
  | _ => (none, ctr)

/-- Filtered map of `_tool_block_to_segment` over a JSON list
(`_maybe_tool_calls_from_content`, list branch). -/
def toolSegmentsOfItems : List Json → Nat → List Segment × Nat
  | [], ctr => ([], ctr)
  | item :: rest, ctr =>
      let r := tool_block_to_segment item ctr
      let rs := toolSegmentsOfItems rest r.2
      (match r.1 with
        | some seg => seg :: rs.1
        | none => rs.1,
        rs.2)

/-- `_maybe_tool_calls_from_content` (`openai_adapter.py`, lines
234-251): recover tool calls that a model emitted as JSON text. -/
def maybe_tool_calls_from_content (content : String) (ctr : Nat) :
    List Segment × Nat :=
  let c := pyStrip content
  match c.toList with
  | [] => ([], ctr)
  | ch :: _ =>
      if ch = '{' ∨ ch = '[' then
        match Json.loads c with
        | none => ([], ctr)
        | some (Json.arr items) => toolSegmentsOfItems items ctr
        | some data =>
            let r := tool_block_to_segment data ctr
            (match r.1 with
              | some seg => [seg]
              | none => [],
              r.2)
      else ([], ctr)

/-- Segments from the blocks of a list-shaped `message.content`
(`OpenAIAdapter.parse_response`, list branch). -/
def contentListSegments : List Json → Nat → List Segment × Nat
  | [], ctr => ([], ctr)
  | block :: rest, ctr =>
      match block.get "type" with
      | some (.str "text") =>
          let t :=
            match block.get "text" with
            | some (.str s) => s
            | _ => ""
          let rs := contentListSegments rest ctr
          (if t = "" then rs.1 else .text t none :: rs.1, rs.2)
      | some (.str "tool_call") | some (.str "function") =>
          let r := tool_block_to_segment block ctr
          let rs := contentListSegments rest r.2
          (match r.1 with
            | some seg => seg :: rs.1
            | none => rs.1,
            rs.2)
      | _ => contentListSegments rest ctr

/-- Segments from the structured `tool_calls` array
(`OpenAIAdapter.parse_response`, lines 179-193). `none` models the
uncaught `TypeError` when an entry's `function.arguments` is a truthy
non-string. -/
def structuredToolCallSegments : List Json → Nat →
    Option (List Segment × Nat)
  | [], ctr => some ([], ctr)
  | call :: rest, ctr =>
      let function :=
        match call.get "function" with
        | some f => f
        | none => Json.obj []
      let rawArgs := jOr (function.get "arguments") (.str "\x7b\x7d")
      match rawArgs with
      | .str s =>
          let arguments :=
            match Json.loads s with
            | some a => a
            | none => Json.obj [("raw", .str s)]
          let name :=
            match function.get "name" with
            | some (.str n) => n
            | _ => ""
          let idAndCtr :=
            match jStrTruthy (call.get "id") with
            | some i => (i, ctr)
            | none => (uuidStr ctr, ctr + 1)
          match structuredToolCallSegments rest idAndCtr.2 with
          | some rs =>
              some (.toolCall name
                  (if arguments.truthy then arguments else Json.obj [])
                  idAndCtr.1 :: rs.1,
                rs.2)
          | none => none
      | _ => none

/-- The `metadata["usage"]` entry written by `OpenAIAdapter.parse_response`
(`openai_adapter.py`, lines 219-225): set only when the payload carries a
truthy `usage` object, missing counters reading as 0. -/
def openaiUsageMeta (payload : Json) : Option Usage :=
  let usage := jOr (payload.get "usage") (Json.obj [])
  if usage.truthy then
    some ⟨jIntD (usage.get "prompt_tokens") 0,
      jIntD (usage.get "completion_tokens") 0⟩
  else none

/-- The legacy `function_call` segment of `OpenAIAdapter.parse_response`
(lines 195-208): always drawn with a fresh id. `none` models the uncaught
`TypeError` on a truthy non-dict value or non-string arguments. -/
def functionCallSegments (message_payload : Json) (ctr : Nat) :
    Option (List Segment × Nat) :=
  match message_payload.get "function_call" with
  | some fc =>
      if fc.truthy then
        match fc with
        | Json.obj _ =>
            let rawArgs := jOr (fc.get "arguments") (.str "\x7b\x7d")
            match rawArgs with
            | .str s =>
                let arguments :=
                  match Json.loads s with
                  | some a => a
                  | none => Json.obj [("raw", .str s)]
                let name :=
                  match fc.get "name" with
                  | some (.str n) => n
                  | _ => ""
                some ([.toolCall name
                    (if arguments.truthy then arguments else Json.obj [])
                    (uuidStr ctr)],
                  ctr + 1)
            | _ => none
        | _ => none
      else some ([], ctr)
  | none => some ([], ctr)

/-- The `content`-derived segments of `OpenAIAdapter.parse_response`
(lines 160-177). -/
def contentSegments (message_payload : Json) (ctr : Nat) :
    List Segment × Nat :=
  match message_payload.get "content" with
  | some (.str s) =>
      let tools := maybe_tool_calls_from_content s ctr
      if tools.1.isEmpty then
        (if s = "" then [] else [Segment.text s none], tools.2)
      else tools
  | some (.arr blocks) => contentListSegments blocks ctr
  | _ => ([], ctr)

/-- `OpenAIAdapter.parse_response` (`openai_adapter.py`, lines 148-227):
`none` models a raised exception (missing `choices`, or a malformed
payload the source would crash on). -/
def openaiParseResponse (payload : Json) (ctr : Nat) :
    Option (ConversationMessage × Nat) :=
  match jOr (payload.get "choices") (Json.arr []) with
  | Json.arr (c0 :: _) =>
      let message_payload := jOr (c0.get "message") (Json.obj [])
      let contentSegs := contentSegments message_payload ctr
      let toolCallsList :=
        match jOr (message_payload.get "tool_calls") (Json.arr []) with
        | Json.arr l => l
        | _ => []
      match structuredToolCallSegments toolCallsList contentSegs.2 with
      | none => none
      | some structSegs =>
          match functionCallSegments message_payload structSegs.2 with
          | none => none
          | some fcs =>
              some
                ({ role := "assistant"
                   segments := contentSegs.1 ++ structSegs.1 ++ fcs.1
                   metadata_usage := openaiUsageMeta payload },
                  fcs.2)
  | _ => none

/-! ## Loop-layer message shapes (`loop.py`) -/

/-- Inner content of a `tool_result` block at the loop layer: a string or
a list of entry dicts (text or image). -/
inductive TRContentL where
  | str (s : String)
  | list (items : List Json)

/-- The claim-relevant shape of one `BetaContentBlockParam` dict at the
loop layer: `tool_result` blocks expose the fields the image filter reads;
every other block kind is opaque payload. -/
inductive LBlockCore where
  | toolResult (tool_use_id : String) (content : TRContentL)
      (is_error : Bool)
  | other (payload : Json)

/-- A loop-layer content block together with the presence of its
`"cache_control"` key. -/
structure LBlock where
  core : LBlockCore
  cache_control : Option Unit

/-- `BetaMessageParam.content`: string-shaped or a block list. -/
inductive LContent where
  | str (s : String)
  | blocks (bs : List LBlock)

/-- `BetaMessageParam` at the loop layer. -/
structure LMsg where
  role : String
  content : LContent

/-! ### Prompt caching (`_inject_prompt_caching`, `loop.py` 754-776) -/

/-- `content[-1]["cache_control"] = {"type": "ephemeral"}`; `none` models
the `IndexError` on empty content. -/
def setLastCC : List LBlock → Option (List LBlock)
  | [] => none
  | [b] => some [{ b with cache_control := some () }]
  | b :: rest => (setLastCC rest).map (b :: ·)

/-- `content[-1].pop("cache_control", None)`; `none` models the
`IndexError` on empty content. -/
def popLastCC : List LBlock → Option (List LBlock)
  | [] => none
  | [b] => some [{ b with cache_control := none }]
  | b :: rest => (popLastCC rest).map (b :: ·)

/-- The `for message in reversed(messages)` walk of
`_inject_prompt_caching`: the argument is the reversed message list;
`bp` is `breakpoints_remaining`. On the message that exhausts the budget
the marker is popped and the walk stops (`break`), leaving all older
messages untouched. -/
def injectPromptCachingRev : Nat → List LMsg → Option (List LMsg)
  | _, [] => some []
  | bp, m :: rest =>
      match m.content with
      | .blocks bs =>
          if m.role = "user" then
            if bp ≠ 0 then
              match setLastCC bs with
              | none => none
              | some bs2 =>
                  (injectPromptCachingRev (bp - 1) rest).map
                    (fun r => ⟨m.role, .blocks bs2⟩ :: r)
            else
              match popLastCC bs with
              | none => none
              | some bs2 => some (⟨m.role, .blocks bs2⟩ :: rest)
          else (injectPromptCachingRev bp rest).map (m :: ·)
      | .str _ => (injectPromptCachingRev bp rest).map (m :: ·)

/-- `_inject_prompt_caching` (`loop.py`, lines 754-776), with
`breakpoints_remaining = 3`. `none` models the `IndexError` the source
raises when a visited user message has an empty content list. -/
def inject_prompt_caching (msgs : List LMsg) : Option (List LMsg) :=
  (injectPromptCachingRev 3 msgs.reverse).map List.reverse

/-- Every block unmarked. -/
def blocksUnmarked : List LBlock → Bool
  | [] => true
  | b :: rest => b.cache_control.isNone && blocksUnmarked rest

/-- Exactly the last block marked. -/
def blocksLastMarked : List LBlock → Bool
  | [] => false
  | [b] => b.cache_control.isSome
  | b :: rest => b.cache_control.isNone && blocksLastMarked rest

/-- All blocks but possibly the last unmarked. -/
def blocksNonLastUnmarked : List LBlock → Bool
  | [] => true
  | [_] => true
  | b :: rest => b.cache_control.isNone && blocksNonLastUnmarked rest

/-- Post-state checker over the reversed message list: the `k` most recent
user messages with list content have exactly their last block marked, and
every older user-message block is unmarked (markers outside user messages
are not counted: the claim speaks of user-message content segments). -/
def cacheOkRev : Nat → List LMsg → Bool
  | _, [] => true
  | k, ⟨role, .blocks bs⟩ :: rest =>
      if role = "user" then
        if k = 0 then blocksUnmarked bs && cacheOkRev 0 rest
        else blocksLastMarked bs && cacheOkRev (k - 1) rest
      else cacheOkRev k rest
  | k, ⟨_, .str _⟩ :: rest => cacheOkRev k rest

/-- Pre-state checker over the reversed message list: cache markers may
sit only on the last block of one of the `k` most recent user messages
with list content. -/
def cachePreRev : Nat → List LMsg → Bool
  | _, [] => true
  | k, ⟨role, .blocks bs⟩ :: rest =>
      if role = "user" then
        if k = 0 then blocksUnmarked bs && cachePreRev 0 rest
        else blocksNonLastUnmarked bs && cachePreRev (k - 1) rest
      else cachePreRev k rest
  | k, ⟨_, .str _⟩ :: rest => cachePreRev k rest

/-! ### Image retention (`_maybe_filter_to_n_most_recent_images`,
`loop.py` 705-751) -/

/-- `isinstance(content, dict) and content.get("type") == "image"`. -/
def isImageEntry (j : Json) : Bool :=
  match j.get "type" with
  | some (.str "image") => true
  | _ => false

/-- Image entries of one block (only `tool_result` blocks with list
content hold any; string content iterates as characters and yields
none). -/
def blockImages (b : LBlock) : List Json :=
  match b.core with
  | .toolResult _ (.list items) _ => items.filter isImageEntry
  | _ => []

/-- All tool-result image entries of a message list, in document order. -/
def imageEntries (msgs : List LMsg) : List Json :=
  msgs.flatMap fun m =>
    match m.content with
    | .blocks bs => bs.flatMap blockImages
    | .str _ => []

/-- The mutation loop body over one content list: drop image entries while
the removal budget is positive, keep everything else. -/
def filterEntries : List Json → Int → List Json × Int
  | [], k => ([], k)
  | e :: rest, k =>
      if isImageEntry e ∧ k > 0 then filterEntries rest (k - 1)
      else
        let p := filterEntries rest k
        (e :: p.1, p.2)

/-- Rewrite one block, threading the removal budget (`tool_result` blocks
with list content only; the source guards with `isinstance(..., list)`). -/
def filterBlock (b : LBlock) (k : Int) : LBlock × Int :=
  match b.core with
  | .toolResult tuid (.list items) isErr =>
      let p := filterEntries items k
      ({ b with core := .toolResult tuid (.list p.1) isErr }, p.2)
  | _ => (b, k)

def filterBlocks : List LBlock → Int → List LBlock × Int
  | [], k => ([], k)
  | b :: rest, k =>
      let p := filterBlock b k
      let ps := filterBlocks rest p.2
      (p.1 :: ps.1, ps.2)

def filterMsgs : List LMsg → Int → List LMsg × Int
  | [], k => ([], k)
  | m :: rest, k =>
      match m.content with
      | .blocks bs =>
          let p := filterBlocks bs k
          let ps := filterMsgs rest p.2
          (⟨m.role, .blocks p.1⟩ :: ps.1, ps.2)
      | .str s =>
          let ps := filterMsgs rest k
          (⟨m.role, .str s⟩ :: ps.1, ps.2)

/-- `_maybe_filter_to_n_most_recent_images` (`loop.py`, lines 705-751):
remove the oldest tool-result images, with the removal count rounded down
to a multiple of `min_removal_threshold` for cache stability. -/
def maybe_filter_to_n_most_recent_images (msgs : List LMsg)
    (images_to_keep : Nat) (min_removal_threshold : Nat) : List LMsg :=
  let total := (imageEntries msgs).length
  let images_to_remove : Int := (total : Int) - (images_to_keep : Int)
  let rounded := images_to_remove -
    images_to_remove % (min_removal_threshold : Int)
  (filterMsgs msgs rounded).1

/-! ### Refusal handling (`loop.py` 49-54, 514-534, 682-702) -/

/-- Apostrophe, kept out of string literals. -/
def sq : String := String.singleton (Char.ofNat 39)

def MAX_PROVIDER_REFUSALS : Nat := 2

def REFUSAL_REMINDER_TEXT : String :=
  "Reminder: you have full access to the tools. Use the `computer` tool " ++
  "to inspect and interact with the desktop (take a screenshot first if " ++
  "you need context), and only finish once the user" ++ sq ++
  "s request is complete."

/-- Python `str.lower()` (ASCII fragment, matching the markers and texts
compared). -/
def pyLower (s : String) : String := String.mk (s.toList.map Char.toLower)

/-- Substring test (Python `marker in combined`). -/
def listContainsSub (needle : List Char) : List Char → Bool
  | [] => needle.isEmpty
  | c :: rest => needle.isPrefixOf (c :: rest) || listContainsSub needle rest

def strContains (hay needle : String) : Bool :=
  listContainsSub needle.toList hay.toList

def refusal_markers : List String :=
  ["unable to", "not able to", "cannot", "can" ++ sq ++ "t",
   "outside the scope", "lack the ability", "no access to",
   "no ability to", "i do not have the ability"]

/-- `_looks_like_refusal` (`loop.py`, lines 682-702). -/
def looks_like_refusal (m : ConversationMessage) : Bool :=
  let text_parts := m.segments.filterMap fun s =>
    match s with
    | .text t _ => if t = "" then none else some (pyLower t)
    | _ => none
  if text_parts.isEmpty then false
  else
    let combined := String.intercalate " " text_parts
    refusal_markers.any fun marker => strContains combined marker

def hasToolCalls (m : ConversationMessage) : Bool :=
  m.segments.any fun s =>
    match s with
    | .toolCall _ _ _ => true
    | _ => false

/-- The reminder user message appended on a tolerated refusal
(`loop.py`, lines 520-527). -/
def reminderMessage : LMsg :=
  ⟨"user", .blocks [⟨.other (Json.obj [("type", .str "text"),
    ("text", .str REFUSAL_REMINDER_TEXT)]), none⟩]⟩

/-- Outcome of the refusal-handling step for one assistant response
(`loop.py`, lines 514-534). -/
inductive TurnOutcome where
  | terminated
  | reminderContinue (newRetries : Nat)
  | toolTurn

/-- The control decision of `sampling_loop` after parsing one assistant
message: no tool calls and a tolerated refusal appends a reminder and
continues with an incremented counter; no tool calls otherwise terminates;
any tool-call turn proceeds to dispatch and resets the counter to 0. -/
def refusalStep (refusal_retries : Nat) (m : ConversationMessage) :
    TurnOutcome :=
  if hasToolCalls m then .toolTurn
  else if looks_like_refusal m ∧ refusal_retries < MAX_PROVIDER_REFUSALS
  then .reminderContinue (refusal_retries + 1)
  else .terminated

/-- Observable refusal-relevant events of a loop run. -/
inductive LoopEvent where
  | appendReminder (m : LMsg)
  | terminate
  | executeTools

/-- The refusal dynamics of `sampling_loop` driven by a given sequence of
assistant responses: the per-turn decision of `refusalStep`, with the
counter reset to 0 after every tool-call turn (`loop.py`, line 534). -/
def runAssistantTurns : List ConversationMessage → Nat → List LoopEvent
  | [], _ => []
  | m :: rest, refusal_retries =>
      match refusalStep refusal_retries m with
      | .terminated => [.terminate]
      | .reminderContinue r2 =>
          .appendReminder reminderMessage :: runAssistantTurns rest r2
      | .toolTurn => .executeTools :: runAssistantTurns rest 0

/-! ### Loop detection (`utils/utils.py` 53-89) -/

/-- Length of the run of entries equal to `last`, scanning the reversed
prefix (`for i in range(len - 2, -1, -1)` with `break`). -/
def countLeadEq (last : String) : List String → Nat
  | [] => 0
  | s :: rest => if s = last then 1 + countLeadEq last rest else 0

/-- The alternating A-B-A-B-A-B test over the last six entries. -/
def altCheck (recent : List String) : Bool :=
  match recent.reverse with
  | a :: b :: c :: d :: e :: f :: _ =>
      a = c && c = e && b = d && d = f
  | _ => false

/-- Description of a consecutive-repetition detection; the bare `except`
branch (non-dict signature) yields the generic text. String `"tool"`
values are the only ones `_normalize_tool_call` produces. -/
def consecDescription (count : Nat) (lastCall : String) : String :=
  match Json.loads lastCall with
  | some (Json.obj kvs) =>
      let tool_name :=
        match lookupKv kvs "tool" with
        | some (.str s) => s
        | some _ => "unknown"
        | none => "unknown"
      "Detected " ++ toString count ++ " consecutive identical calls to " ++
        sq ++ tool_name ++ sq ++ " tool"
  | _ => "Detected " ++ toString count ++ " consecutive identical tool calls"

def ALT_LOOP_DESCRIPTION : String :=
  "Detected alternating pattern of two tool calls repeated 3+ times"

/-- `_detect_tool_call_loop` (`utils/utils.py`, lines 53-89). The
`recent = []` with `max_repeated = 0` corner (where the source raises
`IndexError` on `recent[-1]`) returns no detection here; no analysed
property reaches it. -/
def detect_tool_call_loop (recent_tool_calls : List String)
    (max_repeated : Nat) : Bool × String :=
  if recent_tool_calls.length < max_repeated then (false, "")
  else
    match recent_tool_calls.getLast? with
    | none => (false, "")
    | some last_call =>
        let consecutive_count :=
          1 + countLeadEq last_call recent_tool_calls.reverse.tail
        if max_repeated ≤ consecutive_count then
          (true, consecDescription consecutive_count last_call)
        else if 6 ≤ recent_tool_calls.length ∧
            altCheck recent_tool_calls then
          (true, ALT_LOOP_DESCRIPTION)
        else (false, "")

/-! ### Tool dispatch (`tools/collection.py` 55-62; `loop.py` 595-604,
779-814) -/

/-- An exception crossing the tool boundary: the repository's `ToolError`
(defined in `tools/base.py`, which is not under `src/`; its `message`
field is read in `collection.py`), or an exception of any other type. -/
inductive PyExc where
  | toolError (message : String)
  | other (message : String)

/-- Modelled from the spec: the agent-side `ToolResult` of `tools/base.py`
(not under `src/`), reconstructed from its uses in `loop.py` and
`collection.py` — optional output text, error text, base64 screenshot and
system note; `ToolFailure(error=...)` builds an error-carrying result. -/
structure ToolResult where
  output : Option String := none
  error : Option String := none
  base64_image : Option String := none
  system : Option String := none

def ToolFailure (msg : String) : ToolResult := { error := some msg }

def lookupAssoc {α : Type} (l : List (String × α)) (k : String) :
    Option α :=
  match l with
  | [] => none
  | (k2, v) :: rest => if k2 = k then some v else lookupAssoc rest k

/-- A local tool: arguments in, a result out, or a raised exception. -/
def LocalTool : Type := Json → Except PyExc ToolResult

/-- `ToolCollection.run` (`tools/collection.py`, lines 55-62): unknown
names yield an error-flagged `ToolFailure`; a raised `ToolError` is
converted to a `ToolFailure`; any other exception propagates. -/
def toolCollectionRun (tool_map : List (String × LocalTool)) (name : String)
    (tool_input : Json) : Except PyExc ToolResult :=
  match lookupAssoc tool_map name with
  | none => .ok (ToolFailure ("Tool " ++ name ++ " is invalid"))
  | some tool =>
      match tool tool_input with
      | .ok r => .ok r
      | .error (.toolError msg) => .ok (ToolFailure msg)
      | .error e => .error e

/-- The two-tier resolution of `sampling_loop` (`loop.py`, lines 595-604):
local map hit runs the local tool, otherwise the remote provider is
invoked. The second component records every remote invocation. -/
def dispatchToolCall (tool_map : List (String × LocalTool))
    (remote : String → Json → ToolResult) (name : String)
    (tool_input : Json) :
    Except PyExc ToolResult × List (String × Json) :=
  if (lookupAssoc tool_map name).isSome then
    (toolCollectionRun tool_map name tool_input, [])
  else (.ok (remote name tool_input), [(name, tool_input)])

def DEFAULT_ERROR_TEXT : String :=
  "Tool reported an error but no details were captured."

/-- `_maybe_prepend_system_tool_result` (`loop.py`, lines 835-838). -/
def maybe_prepend_system_tool_result (result : ToolResult)
    (result_text : String) : String :=
  match result.system with
  | some s =>
      if s = "" then result_text
      else "<system>" ++ s ++ "</system>\n" ++ result_text
  | none => result_text

/-- `_make_tool_result_segment` (`loop.py`, lines 779-814). -/
def make_tool_result_segment (result : ToolResult) (tool_use_id : String) :
    Segment :=
  let isErr : Bool :=
    match result.error with
    | some e => e != ""
    | none => false
  if isErr then
    let e := (result.error.getD "")
    let stripped := pyStrip e
    let error_text := if stripped = "" then DEFAULT_ERROR_TEXT else stripped
    .toolResult tool_use_id
      (some (maybe_prepend_system_tool_result result error_text)) [] true
      result.system
  else
    let images :=
      match result.base64_image with
      | some d =>
          if d = "" then []
          else [Json.obj [("type", .str "base64"),
            ("media_type", .str "image/png"), ("data", .str d)]]
      | none => []
    let output_text :=
      match result.output with
      | some o =>
          if o = "" then none
          else some (maybe_prepend_system_tool_result result o)
      | none => none
    .toolResult tool_use_id output_text images false result.system

/-! ## Claim theorems -/

/-- `is_error` flag of a tool-result segment. -/
def isErrorSeg : Segment → Bool
  | .toolResult _ _ _ e _ => e
  | _ => false

/-- C2 counterexample: the claim says the dispatch step never propagates
an exception to the caller, but `ToolCollection.run` catches only
`ToolError` — a tool raising an exception of any other type propagates
it out of `run` unconverted. -/
theorem c2_counterexample :
    toolCollectionRun [("t", fun _ => Except.error (PyExc.other "boom"))]
      "t" (Json.obj []) = Except.error (PyExc.other "boom") := rfl

/-- C2 (amended): an error of the tool-error type raised during execution
is converted into a `ToolFailure` and then into a tool-result segment
with `is_error = true` whose `output_text` carries the (stripped) error
message, never escalating; and a tool name absent from the local map
yields an error-flagged invalid-tool result rather than a crash.
Exceptions of other types are not caught (see the counterexample). -/
theorem c2_tool_error_handling :
    (∀ (tool_map : List (String × LocalTool)) (name : String) (args : Json)
        (tool : LocalTool) (msg cid : String),
      lookupAssoc tool_map name = some tool →
      tool args = .error (.toolError msg) →
      pyStrip msg = msg → msg ≠ "" →
      toolCollectionRun tool_map name args = .ok (ToolFailure msg) ∧
      make_tool_result_segment (ToolFailure msg) cid =
        .toolResult cid (some msg) [] true none) ∧
    (∀ (tool_map : List (String × LocalTool)) (name : String) (args : Json)
        (cid : String),
      lookupAssoc tool_map name = none →
      toolCollectionRun tool_map name args =
        .ok (ToolFailure ("Tool " ++ name ++ " is invalid")) ∧
      isErrorSeg (make_tool_result_segment
        (ToolFailure ("Tool " ++ name ++ " is invalid")) cid) = true) := by
  constructor
  · intro tool_map name args tool msg cid hlook htool hstrip hne
    constructor
    · simp only [toolCollectionRun, hlook, htool]
    · simp only [make_tool_result_segment, ToolFailure]
      have hbne : (msg != "") = true := by simp [hne]
      simp only [hbne, if_true, hstrip, maybe_prepend_system_tool_result,
        Option.getD, hne, if_neg hne]
      simp
  · intro tool_map name args cid hlook
    constructor
    · simp only [toolCollectionRun, hlook]
    · have hne : ("Tool " ++ name ++ " is invalid") ≠ "" := by
        intro h
        have hlen := congrArg String.length h
        rw [String.length_append, String.length_append] at hlen
        have h5 : ("Tool ").length = 5 := by decide
        have h11 : (" is invalid").length = 11 := by decide
        have h0 : ("").length = 0 := by decide
        rw [h5, h11, h0] at hlen
        omega
      have hbne : (("Tool " ++ name ++ " is invalid") != "") = true := by
        simp [hne]
      simp only [make_tool_result_segment, ToolFailure, hbne, if_true,
        isErrorSeg]

/-- C2 witness. -/
theorem c2_tool_error_handling_witness :
    lookupAssoc [("t", (fun _ => Except.error (PyExc.toolError "boom") :
        LocalTool))] "t" =
      some (fun _ => Except.error (PyExc.toolError "boom")) ∧
    pyStrip "boom" = "boom" ∧ "boom" ≠ "" ∧
    (toolCollectionRun [("t", fun _ => Except.error (PyExc.toolError "boom"))]
        "t" (Json.obj []) = .ok (ToolFailure "boom") ∧
      make_tool_result_segment (ToolFailure "boom") "id1" =
        .toolResult "id1" (some "boom") [] true none) ∧
    (lookupAssoc ([] : List (String × LocalTool)) "zzz" = none ∧
      toolCollectionRun [] "zzz" (Json.obj []) =
        .ok (ToolFailure ("Tool " ++ "zzz" ++ " is invalid")) ∧
      isErrorSeg (make_tool_result_segment
        (ToolFailure ("Tool " ++ "zzz" ++ " is invalid")) "id2") = true) :=
  ⟨rfl, rfl, by decide,
    c2_tool_error_handling.1 _ "t" (Json.obj []) _ "boom" "id1" rfl rfl rfl
      (by decide),
    rfl,
    c2_tool_error_handling.2 [] "zzz" (Json.obj []) "id2" rfl⟩

/-- C4: with the refusal-retry budget `MAX_PROVIDER_REFUSALS = 2`, an
assistant message with text "I cannot do that" and no tool calls causes a
reminder user message to be appended and the loop to continue, exactly
twice for consecutive refusals; the third consecutive refusal terminates
the loop; and any turn with at least one tool call resets the refusal
counter to 0. -/
theorem c4_refusal_retry_dynamics :
    runAssistantTurns
      [⟨"assistant", [.text "I cannot do that" none], none⟩,
       ⟨"assistant", [.text "I cannot do that" none], none⟩,
       ⟨"assistant", [.text "I cannot do that" none], none⟩] 0 =
      [.appendReminder reminderMessage, .appendReminder reminderMessage,
       .terminate] ∧
    (∀ (retries : Nat) (rest : List ConversationMessage)
        (m : ConversationMessage), hasToolCalls m = true →
      runAssistantTurns (m :: rest) retries =
        .executeTools :: runAssistantTurns rest 0) := by
  constructor
  · rfl
  · intro retries rest m h
    simp only [runAssistantTurns, refusalStep, h, if_true]

/-- C4 witness. -/
theorem c4_refusal_retry_dynamics_witness :
    hasToolCalls ⟨"assistant", [.toolCall "bash" (Json.obj []) "1"], none⟩ =
      true ∧
    runAssistantTurns
      [⟨"assistant", [.toolCall "bash" (Json.obj []) "1"], none⟩] 5 =
      [.executeTools] :=
  ⟨rfl,
    (c4_refusal_retry_dynamics.2 5 []
      ⟨"assistant", [.toolCall "bash" (Json.obj []) "1"], none⟩ rfl).trans
      rfl⟩

/-- C5: the loop detector with repetition threshold 2 detects `[A, A]`
(the 2nd repeat), reports the alternating-pattern description for
`[A, B, A, B, A, B]` with distinct signatures, and reports no loop for
`[A, B, C, A, B, C]` with distinct signatures. -/
theorem c5_loop_detector_cases :
    (∀ A : String, (detect_tool_call_loop [A, A] 2).1 = true) ∧
    (∀ A B : String, A ≠ B →
      detect_tool_call_loop [A, B, A, B, A, B] 2 =
        (true, ALT_LOOP_DESCRIPTION)) ∧
    (∀ A B C : String, B ≠ C → A ≠ C →
      detect_tool_call_loop [A, B, C, A, B, C] 2 = (false, "")) := by
  refine ⟨?_, ?_, ?_⟩
  · intro A
    simp [detect_tool_call_loop, countLeadEq, List.getLast?]
  · intro A B h
    have h2 : ¬(A = B) := h
    simp [detect_tool_call_loop, countLeadEq, altCheck, List.getLast?, h2]
  · intro A B C hBC hAC
    have h1 : ¬(B = C) := hBC
    have h2 : ¬(C = A) := fun hEq => hAC hEq.symm
    simp [detect_tool_call_loop, countLeadEq, altCheck, List.getLast?, h1,
      h2]

/-- C5 witness. -/
theorem c5_loop_detector_cases_witness :
    (detect_tool_call_loop ["a", "a"] 2).1 = true ∧
    (("a" : String) ≠ "b" ∧
      detect_tool_call_loop ["a", "b", "a", "b", "a", "b"] 2 =
        (true, ALT_LOOP_DESCRIPTION)) ∧
    (("b" : String) ≠ "c" ∧ ("a" : String) ≠ "c" ∧
      detect_tool_call_loop ["a", "b", "c", "a", "b", "c"] 2 =
        (false, "")) :=
  ⟨c5_loop_detector_cases.1 "a",
    ⟨by decide, c5_loop_detector_cases.2.1 "a" "b" (by decide)⟩,
    ⟨by decide, by decide,
      c5_loop_detector_cases.2.2 "a" "b" "c" (by decide) (by decide)⟩⟩

/-- C7: a response whose message content is exactly the JSON text
`{"type":"function","name":"bash","arguments":{"command":"ls"}}` and
which has no structured `tool_calls` field parses to an assistant message
holding a ToolCall segment with tool_name "bash" and arguments
`{"command": "ls"}` (with a fresh call id). -/
theorem c7_text_embedded_tool_call :
    openaiParseResponse
      (Json.obj [("choices", Json.arr [Json.obj [("message",
        Json.obj [("content", Json.str
          "\x7b\"type\":\"function\",\"name\":\"bash\",\"arguments\":\x7b\"command\":\"ls\"\x7d\x7d")])]])])
      0 =
    some (⟨"assistant",
      [Segment.toolCall "bash" (Json.obj [("command", Json.str "ls")])
        (uuidStr 0)], none⟩, 1) := rfl

/-- C9: two-tier dispatch — a name present in the local capability map
runs the local tool and never touches the remote provider (local wins);
a name absent from the local map is forwarded to the remote provider
exactly once, with the same name and arguments, and its result is
returned. The second component of `dispatchToolCall` records every remote
invocation. -/
theorem c9_dispatch_two_tier :
    (∀ (tool_map : List (String × LocalTool))
        (remote : String → Json → ToolResult) (name : String) (args : Json),
      (lookupAssoc tool_map name).isSome = true →
      dispatchToolCall tool_map remote name args =
        (toolCollectionRun tool_map name args, [])) ∧
    (∀ (tool_map : List (String × LocalTool))
        (remote : String → Json → ToolResult) (name : String) (args : Json),
      lookupAssoc tool_map name = none →
      dispatchToolCall tool_map remote name args =
        (.ok (remote name args), [(name, args)])) := by
  constructor
  · intro tool_map remote name args h
    simp only [dispatchToolCall, h, if_true]
  · intro tool_map remote name args h
    simp [dispatchToolCall, h]

/-- C9 witness. -/
theorem c9_dispatch_two_tier_witness :
    (lookupAssoc [("bash", (fun _ => Except.ok { output := some "out" } :
        LocalTool))] "bash").isSome = true ∧
    dispatchToolCall [("bash", fun _ => Except.ok { output := some "out" })]
        (fun _ _ => { output := some "remote" }) "bash" (Json.obj []) =
      (toolCollectionRun [("bash", fun _ => Except.ok
        { output := some "out" })] "bash" (Json.obj []), []) ∧
    lookupAssoc ([] : List (String × LocalTool)) "extra" = none ∧
    dispatchToolCall ([] : List (String × LocalTool))
        (fun _ _ => { output := some "remote" }) "extra" (Json.obj []) =
      (.ok { output := some "remote" }, [("extra", Json.obj [])]) :=
  ⟨rfl,
    c9_dispatch_two_tier.1 _ _ "bash" (Json.obj []) rfl,
    rfl,
    c9_dispatch_two_tier.2 _ _ "extra" (Json.obj []) rfl⟩

/-- Inversion of `openaiParseResponse`: a successful parse exposes the
first choice, the three segment sources, the assistant role and the usage
metadata. -/
theorem openaiParseResponse_inv {payload : Json} {ctr : Nat}
    {m : ConversationMessage} {ctr2 : Nat}
    (h : openaiParseResponse payload ctr = some (m, ctr2)) :
    ∃ c0 rest scs fcs,
      jOr (payload.get "choices") (Json.arr []) = Json.arr (c0 :: rest) ∧
      structuredToolCallSegments
        (match jOr ((jOr (c0.get "message") (Json.obj [])).get "tool_calls")
            (Json.arr []) with
          | Json.arr l => l
          | _ => [])
        (contentSegments (jOr (c0.get "message") (Json.obj [])) ctr).2 =
        some scs ∧
      functionCallSegments (jOr (c0.get "message") (Json.obj [])) scs.2 =
        some fcs ∧
      m = { role := "assistant"
            segments :=
              (contentSegments (jOr (c0.get "message") (Json.obj []))
                ctr).1 ++ scs.1 ++ fcs.1
            metadata_usage := openaiUsageMeta payload } ∧
      ctr2 = fcs.2 := by
  unfold openaiParseResponse at h
  split at h
  · next c0 rest heq =>
    refine ⟨c0, rest, ?_⟩
    simp only [] at h
    split at h
    · exact absurd h (by simp)
    · next scs hscs =>
      split at h
      · exact absurd h (by simp)
      · next fcs hfcs =>
        have hp := Option.some.inj h
        exact ⟨scs, fcs, heq, hscs, hfcs, (congrArg Prod.fst hp).symm,
          (congrArg Prod.snd hp).symm⟩
  · exact absurd h (by simp)

/-- C8 counterexample: for a response carrying no usage information at
all, `parse_response` leaves `metadata["usage"]` absent (`metadata_usage =
none`), whereas the claim requires the entry to be present with zero
values. -/
theorem c8_counterexample :
    (openaiParseResponse (Json.obj [("choices", Json.arr [Json.obj
        [("message", Json.obj [("content", Json.str "hi")])]])]) 0).map
      (fun p => p.1.metadata_usage) = some none := rfl

/-- C8 (amended): each adapter's `parse_response` returns one assistant
message, and records `metadata["usage"]` exactly when the backend reports
usage — for the OpenAI adapter a truthy `usage` object (individually
missing counters read as 0), for the Anthropic adapter a present `usage`
attribute (individually missing counters read as 0). When the response
carries no usage information the entry is absent, not zeroed. -/
theorem c8_usage_metadata :
    (∀ (payload : Json) (ctr : Nat) (m : ConversationMessage) (ctr2 : Nat),
      openaiParseResponse payload ctr = some (m, ctr2) →
      m.role = "assistant" ∧
      (payload.get "usage" = none → m.metadata_usage = none) ∧
      (∀ kvs, payload.get "usage" = some (Json.obj kvs) → kvs ≠ [] →
        ∃ u, m.metadata_usage = some u ∧
          (∀ i, lookupKv kvs "prompt_tokens" = some (.num i) →
            u.input_tokens = i) ∧
          (lookupKv kvs "prompt_tokens" = none → u.input_tokens = 0) ∧
          (∀ i, lookupKv kvs "completion_tokens" = some (.num i) →
            u.output_tokens = i) ∧
          (lookupKv kvs "completion_tokens" = none →
            u.output_tokens = 0))) ∧
    (∀ resp : AnthropicResponse,
      (anthropicParseResponse resp).role = "assistant" ∧
      (resp.usage = none →
        (anthropicParseResponse resp).metadata_usage = none) ∧
      (∀ u, resp.usage = some u →
        (anthropicParseResponse resp).metadata_usage =
          some ⟨u.input_tokens.getD 0, u.output_tokens.getD 0⟩)) := by
  constructor
  · intro payload ctr m ctr2 h
    obtain ⟨c0, rest, scs, fcs, _, _, _, hm, _⟩ := openaiParseResponse_inv h
    subst hm
    refine ⟨rfl, ?_, ?_⟩
    · intro hu
      simp only [openaiUsageMeta, jOr, hu]
      simp [Json.truthy]
    · intro kvs hu hne
      refine ⟨⟨jIntD (lookupKv kvs "prompt_tokens") 0,
        jIntD (lookupKv kvs "completion_tokens") 0⟩, ?_, ?_, ?_, ?_, ?_⟩
      · have htr : (Json.obj kvs).truthy = true := by
          simp [Json.truthy, hne]
        simp only [openaiUsageMeta, jOr, hu, htr]
        simp [Json.get]
        exact htr
      · intro i hi
        simp [jIntD, hi]
      · intro hi
        simp [jIntD, hi]
      · intro i hi
        simp [jIntD, hi]
      · intro hi
        simp [jIntD, hi]
  · intro resp
    refine ⟨rfl, ?_, ?_⟩
    · intro hu
      simp [anthropicParseResponse, hu]
    · intro u hu
      simp [anthropicParseResponse, hu]

/-- C8 witness. -/
theorem c8_usage_metadata_witness :
    openaiParseResponse (Json.obj [("choices", Json.arr [Json.obj []]),
        ("usage", Json.obj [("prompt_tokens", Json.num 7)])]) 0 =
      some (⟨"assistant", [], some ⟨7, 0⟩⟩, 0) ∧
    (⟨"assistant", [], some ⟨7, 0⟩⟩ : ConversationMessage).role =
      "assistant" ∧
    (∃ u, (⟨"assistant", [], some ⟨7, 0⟩⟩ :
        ConversationMessage).metadata_usage = some u ∧
      (∀ i, lookupKv [("prompt_tokens", Json.num 7)] "prompt_tokens" =
        some (.num i) → u.input_tokens = i) ∧
      (lookupKv [("prompt_tokens", Json.num 7)] "prompt_tokens" = none →
        u.input_tokens = 0) ∧
      (∀ i, lookupKv [("prompt_tokens", Json.num 7)] "completion_tokens" =
        some (.num i) → u.output_tokens = i) ∧
      (lookupKv [("prompt_tokens", Json.num 7)] "completion_tokens" = none →
        u.output_tokens = 0)) ∧
    (anthropicParseResponse ⟨[], none⟩).metadata_usage = none := by
  refine ⟨rfl, rfl, ?_, ?_⟩
  · exact (c8_usage_metadata.1
      (Json.obj [("choices", Json.arr [Json.obj []]),
        ("usage", Json.obj [("prompt_tokens", Json.num 7)])]) 0
      ⟨"assistant", [], some ⟨7, 0⟩⟩ 0 rfl).2.2
      [("prompt_tokens", Json.num 7)] rfl (by simp)
  · exact (c8_usage_metadata.2 ⟨[], none⟩).2.1 rfl

/-- `uuid4()`-generated ids are never the empty string. -/
theorem uuidStr_ne_empty (n : Nat) : uuidStr n ≠ "" := by
  intro h
  have h0 : (uuidStr n).length = 0 := by rw [h]; rfl
  have h5 : ("uuid-" : String).length = 5 := by decide
  rw [uuidStr, String.length_append, h5] at h0
  omega

/-- A string surviving Python `or`-chaining is non-empty. -/
theorem jStrTruthy_ne_empty {a : Option Json} {s : String}
    (h : jStrTruthy a = some s) : s ≠ "" := by
  unfold jStrTruthy at h
  split at h
  · next s2 =>
    by_cases he : s2 = ""
    · rw [if_pos he] at h
      exact absurd h (by simp)
    · rw [if_neg he] at h
      obtain rfl := Option.some.inj h
      exact he
  · exact absurd h (by simp)

/-- Every segment produced by `_tool_block_to_segment` is a tool call
with a non-empty id. -/
theorem tool_block_to_segment_id {block : Json} {ctr : Nat} {seg : Segment}
    (h : (tool_block_to_segment block ctr).1 = some seg) :
    ∃ n a i, seg = Segment.toolCall n a i ∧ i ≠ "" := by
  rcases block with _ | b | n0 | s0 | l0 | kvs
  · exact absurd h (by simp [tool_block_to_segment])
  · exact absurd h (by simp [tool_block_to_segment])
  · exact absurd h (by simp [tool_block_to_segment])
  · exact absurd h (by simp [tool_block_to_segment])
  · exact absurd h (by simp [tool_block_to_segment])
  · unfold tool_block_to_segment at h
    dsimp only at h
    repeat' split at h
    all_goals
      first
        | exact Option.noConfusion h
        | (obtain rfl := Option.some.inj h;
           refine ⟨_, _, _, rfl, ?_⟩;
           first
             | exact uuidStr_ne_empty _
             | (rename_i s hs; exact jStrTruthy_ne_empty hs))

/-- All tool calls recovered from a JSON list of tool blocks carry
non-empty ids. -/
theorem toolSegmentsOfItems_ids (items : List Json) :
    ∀ (ctr : Nat) (n : String) (a : Json) (i : String),
      Segment.toolCall n a i ∈ (toolSegmentsOfItems items ctr).1 →
      i ≠ "" := by
  induction items with
  | nil => intro ctr n a i h; simp [toolSegmentsOfItems] at h
  | cons item rest ih =>
    intro ctr n a i h
    rw [toolSegmentsOfItems] at h
    simp only [] at h
    split at h
    · next seg hfst =>
      rcases List.mem_cons.mp h with hq | hmem
      · obtain ⟨n2, a2, i2, hseg, hne⟩ := tool_block_to_segment_id hfst
        injection hq.trans hseg with h1 h2 h3
        rw [h3]
        exact hne
      · exact ih _ n a i hmem
    · exact ih _ n a i h

/-- All tool calls recovered from textual JSON content carry non-empty
ids. -/
theorem maybe_tool_calls_ids (content : String) (ctr : Nat)
    (n : String) (a : Json) (i : String)
    (h : Segment.toolCall n a i ∈
      (maybe_tool_calls_from_content content ctr).1) : i ≠ "" := by
  rw [maybe_tool_calls_from_content] at h
  simp only [] at h
  split at h
  · simp at h
  · split at h
    · split at h
      · simp at h
      · exact toolSegmentsOfItems_ids _ _ n a i h
      · split at h
        · next seg hfst =>
          obtain ⟨n2, a2, i2, hseg, hne⟩ := tool_block_to_segment_id hfst
          rcases List.mem_cons.mp h with hq | hmem
          · injection hq.trans hseg with h1 h2 h3
            rw [h3]
            exact hne
          · simp at hmem
        · simp at h
    · simp at h

/-- All tool calls from a list-shaped `message.content` carry non-empty
ids. -/
theorem contentListSegments_ids (blocks : List Json) :
    ∀ (ctr : Nat) (n : String) (a : Json) (i : String),
      Segment.toolCall n a i ∈ (contentListSegments blocks ctr).1 →
      i ≠ "" := by
  induction blocks with
  | nil => intro ctr n a i h; simp [contentListSegments] at h
  | cons block rest ih =>
    intro ctr n a i h
    rw [contentListSegments] at h
    split at h
    · dsimp only at h
      split at h
      · exact ih _ n a i h
      · rcases List.mem_cons.mp h with hq | hmem
        · exact absurd hq (by simp)
        · exact ih _ n a i hmem
    · dsimp only at h
      split at h
      · next seg hfst =>
        obtain ⟨n2, a2, i2, hseg, hne⟩ := tool_block_to_segment_id hfst
        rcases List.mem_cons.mp h with hq | hmem
        · injection hq.trans hseg with h1 h2 h3
          rw [h3]
          exact hne
        · exact ih _ n a i hmem
      · exact ih _ n a i h
    · dsimp only at h
      split at h
      · next seg hfst =>
        obtain ⟨n2, a2, i2, hseg, hne⟩ := tool_block_to_segment_id hfst
        rcases List.mem_cons.mp h with hq | hmem
        · injection hq.trans hseg with h1 h2 h3
          rw [h3]
          exact hne
        · exact ih _ n a i hmem
      · exact ih _ n a i h
    · exact ih _ n a i h

/-- All tool calls from the structured `tool_calls` array carry non-empty
ids. -/
theorem structuredToolCallSegments_ids (calls : List Json) :
    ∀ (ctr : Nat) (out : List Segment × Nat),
      structuredToolCallSegments calls ctr = some out →
      ∀ (n : String) (a : Json) (i : String),
        Segment.toolCall n a i ∈ out.1 → i ≠ "" := by
  induction calls with
  | nil =>
    intro ctr out hout n a i h
    obtain rfl := Option.some.inj hout.symm
    simp at h
  | cons call rest ih =>
    intro ctr out hout n a i h
    rw [structuredToolCallSegments] at hout
    simp only [] at hout
    split at hout
    · split at hout
      · next rs hrs =>
        obtain rfl := Option.some.inj hout.symm
        rcases List.mem_cons.mp h with hq | hmem
        · injection hq with h1 h2 h3
          rw [h3]
          split
          · next i2 hid => exact jStrTruthy_ne_empty hid
          · exact uuidStr_ne_empty _
        · exact ih _ rs hrs n a i hmem
      · exact absurd hout (by simp)
    · exact absurd hout (by simp)

/-- The legacy `function_call` segment always carries a fresh non-empty
id. -/
theorem functionCallSegments_ids {mp : Json} {ctr : Nat}
    {out : List Segment × Nat}
    (h : functionCallSegments mp ctr = some out) :
    ∀ (n : String) (a : Json) (i : String),
      Segment.toolCall n a i ∈ out.1 → i ≠ "" := by
  unfold functionCallSegments at h
  split at h
  · split at h
    · split at h
      · simp only [] at h
        split at h
        · intro n a i hmem
          obtain rfl := Option.some.inj h.symm
          rcases List.mem_cons.mp hmem with hq | hx
          · injection hq with h1 h2 h3
            rw [h3]
            exact uuidStr_ne_empty ctr
          · simp at hx
        · exact absurd h (by simp)
      · exact absurd h (by simp)
    · obtain rfl := Option.some.inj h.symm
      intro n a i hmem
      simp at hmem
  · obtain rfl := Option.some.inj h.symm
    intro n a i hmem
    simp at hmem

/-- All tool calls from the `content` field carry non-empty ids. -/
theorem contentSegments_ids (mp : Json) (ctr : Nat)
    (n : String) (a : Json) (i : String)
    (h : Segment.toolCall n a i ∈ (contentSegments mp ctr).1) :
    i ≠ "" := by
  rw [contentSegments] at h
  split at h
  · simp only [] at h
    split at h
    · split at h
      · simp at h
      · rcases List.mem_cons.mp h with hq | hmem
        · exact absurd hq (by simp)
        · simp at hmem
    · exact maybe_tool_calls_ids _ _ n a i h
  · exact contentListSegments_ids _ _ n a i h
  · simp at h

/-- C10: every ToolCall segment produced by `OpenAIAdapter.parse_response`
has a non-empty `call_id` — backend ids are used unchanged when present
(structured `tool_calls` entries keep a supplied truthy id verbatim, in
place), and a fresh `uuid-`-prefixed identifier is generated when the id
is missing or empty, for structured entries, the legacy `function_call`
and tool calls recovered from text content alike. -/
theorem c10_call_ids_nonempty :
    (∀ (payload : Json) (ctr : Nat) (m : ConversationMessage) (ctr2 : Nat),
      openaiParseResponse payload ctr = some (m, ctr2) →
      ∀ (n : String) (a : Json) (i : String),
        Segment.toolCall n a i ∈ m.segments → i ≠ "") ∧
    (∀ (call : Json) (rest : List Json) (ctr : Nat)
        (out : List Segment × Nat) (s : String),
      jStrTruthy (call.get "id") = some s →
      structuredToolCallSegments (call :: rest) ctr = some out →
      ∃ n a t, out.1 = Segment.toolCall n a s :: t) := by
  constructor
  · intro payload ctr m ctr2 h n a i hmem
    obtain ⟨c0, rest, scs, fcs, _, hscs, hfcs, hm, _⟩ :=
      openaiParseResponse_inv h
    rw [hm] at hmem
    simp only [List.mem_append] at hmem
    rcases hmem with (hc | hs) | hf
    · exact contentSegments_ids _ _ n a i hc
    · exact structuredToolCallSegments_ids _ _ _ hscs n a i hs
    · exact functionCallSegments_ids hfcs n a i hf
  · intro call rest ctr out s hid hout
    rw [structuredToolCallSegments] at hout
    simp only [] at hout
    rw [hid] at hout
    split at hout
    · split at hout
      · next rs hrs =>
        obtain rfl := Option.some.inj hout.symm
        exact ⟨_, _, rs.1, rfl⟩
      · exact absurd hout (by simp)
    · exact absurd hout (by simp)

/-- C10 witness: a structured `tool_calls` entry carrying id `call_1`
parses to a tool call keeping that id, and the id is non-empty. -/
theorem c10_call_ids_nonempty_witness :
    ("call_1" : String) ≠ "" ∧
    (∃ n a t, ([Segment.toolCall "t" (Json.obj []) "call_1"], 0).1 =
      Segment.toolCall n a "call_1" :: t) := by
  constructor
  · exact c10_call_ids_nonempty.1
      (Json.obj [("choices", Json.arr [Json.obj [("message", Json.obj [("tool_calls", Json.arr [Json.obj [("id", Json.str "call_1"), ("function", Json.obj [("name", Json.str "t"), ("arguments", Json.str "\x7b\x7d")])]])])]])])
      0 ⟨"assistant", [Segment.toolCall "t" (Json.obj []) "call_1"], none⟩
      0 rfl "t" (Json.obj []) "call_1" (by simp)
  · exact c10_call_ids_nonempty.2
      (Json.obj [("id", Json.str "call_1"), ("function", Json.obj [("name", Json.str "t"), ("arguments", Json.str "\x7b\x7d")])])
      [] 0 ([Segment.toolCall "t" (Json.obj []) "call_1"], 0) "call_1"
      rfl rfl

/-- A non-positive removal budget leaves a content list untouched. -/
theorem filterEntries_id (items : List Json) :
    ∀ k : Int, k ≤ 0 → filterEntries items k = (items, k) := by
  induction items with
  | nil => intro k hk; rfl
  | cons e rest ih =>
    intro k hk
    rw [filterEntries, if_neg (fun hc => absurd hc.2 (by omega))]
    rw [ih k hk]

/-- `filterEntries` drops exactly the first `k` image entries (all of
them if `k` exceeds their count, none for `k ≤ 0`), and returns the
leftover budget. -/
theorem filterEntries_spec (items : List Json) :
    ∀ k : Int,
      (filterEntries items k).1.filter isImageEntry =
        (items.filter isImageEntry).drop k.toNat ∧
      (filterEntries items k).2 =
        k - min (max k 0) ((items.filter isImageEntry).length : Int) := by
  induction items with
  | nil =>
    intro k
    refine ⟨by simp [filterEntries], ?_⟩
    simp only [filterEntries, List.filter_nil, List.length_nil]
    omega
  | cons e rest ih =>
    intro k
    rw [filterEntries]
    by_cases hc : (isImageEntry e = true) ∧ k > 0
    · rw [if_pos hc]
      obtain ⟨himg, hk⟩ := hc
      have ht : k.toNat = (k - 1).toNat + 1 := by omega
      refine ⟨?_, ?_⟩
      · rw [(ih (k - 1)).1, List.filter_cons_of_pos (by simp [himg]), ht,
          List.drop_succ_cons]
      · rw [(ih (k - 1)).2, List.filter_cons_of_pos (by simp [himg])]
        simp only [List.length_cons]
        push_cast
        omega
    · rw [if_neg hc]
      dsimp only
      by_cases himg : isImageEntry e = true
      · have hk : ¬ k > 0 := fun hgt => hc ⟨himg, hgt⟩
        have ht : k.toNat = 0 := by omega
        refine ⟨?_, ?_⟩
        · rw [List.filter_cons_of_pos (by simp [himg]),
            List.filter_cons_of_pos (by simp [himg]), (ih k).1, ht,
            List.drop_zero, List.drop_zero]
        · rw [(ih k).2, List.filter_cons_of_pos (by simp [himg])]
          simp only [List.length_cons]
          push_cast
          omega
      · refine ⟨?_, ?_⟩
        · rw [List.filter_cons_of_neg (by simp [himg]),
            List.filter_cons_of_neg (by simp [himg]), (ih k).1]
        · rw [(ih k).2, List.filter_cons_of_neg (by simp [himg])]

theorem filterBlock_id (b : LBlock) (k : Int) (hk : k ≤ 0) :
    filterBlock b k = (b, k) := by
  rcases b with ⟨core, cc⟩
  rcases core with ⟨tuid, content, isErr⟩ | j
  · rcases content with s | items
    · rfl
    · simp [filterBlock, filterEntries_id items k hk]
  · rfl

/-- Block-level image drop and budget threading. -/
theorem filterBlock_spec (b : LBlock) (k : Int) :
    blockImages (filterBlock b k).1 = (blockImages b).drop k.toNat ∧
    (filterBlock b k).2 =
      k - min (max k 0) ((blockImages b).length : Int) := by
  rcases b with ⟨core, cc⟩
  rcases core with ⟨tuid, content, isErr⟩ | j
  · rcases content with s | items
    · refine ⟨by simp [filterBlock, blockImages], ?_⟩
      simp only [filterBlock, blockImages, List.length_nil]
      omega
    · have hs := filterEntries_spec items k
      refine ⟨?_, ?_⟩
      · simpa [filterBlock, blockImages] using hs.1
      · simpa [filterBlock, blockImages] using hs.2
  · refine ⟨by simp [filterBlock, blockImages], ?_⟩
    simp only [filterBlock, blockImages, List.length_nil]
    omega

theorem filterBlocks_id (bs : List LBlock) :
    ∀ k : Int, k ≤ 0 → filterBlocks bs k = (bs, k) := by
  induction bs with
  | nil => intro k hk; rfl
  | cons b rest ih =>
    intro k hk
    rw [filterBlocks]
    rw [filterBlock_id b k hk]
    dsimp only
    rw [ih k hk]

/-- Content-list level image drop and budget threading. -/
theorem filterBlocks_spec (bs : List LBlock) :
    ∀ k : Int,
      ((filterBlocks bs k).1.flatMap blockImages) =
        (bs.flatMap blockImages).drop k.toNat ∧
      (filterBlocks bs k).2 =
        k - min (max k 0) ((bs.flatMap blockImages).length : Int) := by
  induction bs with
  | nil =>
    intro k
    refine ⟨by simp [filterBlocks], ?_⟩
    simp only [filterBlocks, List.flatMap_nil, List.length_nil]
    omega
  | cons b rest ih =>
    intro k
    rw [filterBlocks]
    dsimp only
    have hb := filterBlock_spec b k
    have hr := ih (filterBlock b k).2
    refine ⟨?_, ?_⟩
    · have htn : ((filterBlock b k).2).toNat =
          k.toNat - (blockImages b).length := by
        have h2 := hb.2
        omega
      rw [List.flatMap_cons, List.flatMap_cons, hb.1, hr.1, htn,
        List.drop_append_eq_append_drop]
    · rw [hr.2, hb.2, List.flatMap_cons, List.length_append]
      push_cast
      omega

theorem filterMsgs_id (msgs : List LMsg) :
    ∀ k : Int, k ≤ 0 → filterMsgs msgs k = (msgs, k) := by
  induction msgs with
  | nil => intro k hk; rfl
  | cons m rest ih =>
    intro k hk
    rcases m with ⟨role, content⟩
    rcases content with s | bs
    · rw [filterMsgs]
      dsimp only
      rw [ih k hk]
    · rw [filterMsgs]
      dsimp only
      rw [filterBlocks_id bs k hk]
      dsimp only
      rw [ih k hk]

/-- One step of `imageEntries` over a message cons. -/
theorem imageEntries_cons (m : LMsg) (rest : List LMsg) :
    imageEntries (m :: rest) =
      (match m.content with
        | LContent.blocks bs => bs.flatMap blockImages
        | LContent.str _ => []) ++ imageEntries rest := by
  rw [imageEntries, List.flatMap_cons, ← imageEntries]

theorem imageEntries_cons_str (role s : String) (rest : List LMsg) :
    imageEntries (⟨role, LContent.str s⟩ :: rest) = imageEntries rest := by
  rw [imageEntries_cons]
  rfl

theorem imageEntries_cons_blocks (role : String) (bs : List LBlock)
    (rest : List LMsg) :
    imageEntries (⟨role, LContent.blocks bs⟩ :: rest) =
      bs.flatMap blockImages ++ imageEntries rest := by
  rw [imageEntries_cons]

/-- Message-list level image drop and budget threading. -/
theorem filterMsgs_spec (msgs : List LMsg) :
    ∀ k : Int,
      imageEntries (filterMsgs msgs k).1 =
        (imageEntries msgs).drop k.toNat ∧
      (filterMsgs msgs k).2 =
        k - min (max k 0) ((imageEntries msgs).length : Int) := by
  induction msgs with
  | nil =>
    intro k
    refine ⟨by simp [filterMsgs, imageEntries], ?_⟩
    simp only [filterMsgs, imageEntries, List.flatMap_nil, List.length_nil]
    omega
  | cons m rest ih =>
    intro k
    rcases m with ⟨role, content⟩
    rcases content with s | bs
    · rw [filterMsgs]
      dsimp only
      have hr := ih k
      refine ⟨?_, ?_⟩
      · rw [imageEntries_cons_str, imageEntries_cons_str, hr.1]
      · rw [imageEntries_cons_str, hr.2]
    · rw [filterMsgs]
      dsimp only
      have hb := filterBlocks_spec bs k
      have hr := ih (filterBlocks bs k).2
      refine ⟨?_, ?_⟩
      · have htn : ((filterBlocks bs k).2).toNat =
            k.toNat - (bs.flatMap blockImages).length := by
          have h2 := hb.2
          omega
        rw [imageEntries_cons_blocks, imageEntries_cons_blocks, hb.1,
          hr.1, htn, List.drop_append_eq_append_drop]
      · rw [imageEntries_cons_blocks, hr.2, hb.2, List.length_append]
        push_cast
        omega

/-- C6: for every message list, `images_to_keep` K > 0 and chunk size
C > 0, `_maybe_filter_to_n_most_recent_images` keeps exactly the most
recent tool-result images in document order (it drops the oldest
`(total - K) - (total - K) % C`), the remaining count is at most the
prior total minus the removal count rounded down to a multiple of C, and
when the prior total is at most K no image (indeed no message) is
touched. -/
theorem c6_image_retention (msgs : List LMsg) (K C : Nat)
    (hK : 0 < K) (hC : 0 < C) :
    imageEntries (maybe_filter_to_n_most_recent_images msgs K C) =
      (imageEntries msgs).drop
        ((((imageEntries msgs).length : Int) - (K : Int) -
          (((imageEntries msgs).length : Int) - (K : Int)) %
            (C : Int)).toNat) ∧
    ((imageEntries (maybe_filter_to_n_most_recent_images msgs K C)).length
        : Int) ≤
      ((imageEntries msgs).length : Int) -
        ((((imageEntries msgs).length : Int) - (K : Int)) -
          (((imageEntries msgs).length : Int) - (K : Int)) % (C : Int)) ∧
    ((imageEntries msgs).length ≤ K →
      maybe_filter_to_n_most_recent_images msgs K C = msgs) := by
  have hC' : (0 : Int) < (C : Int) := by exact_mod_cast hC
  have hm1 : 0 ≤ (((imageEntries msgs).length : Int) - (K : Int)) %
      (C : Int) :=
    Int.emod_nonneg _ (by omega)
  have hm2 : (((imageEntries msgs).length : Int) - (K : Int)) % (C : Int) <
      (C : Int) :=
    Int.emod_lt_of_pos _ hC'
  have hunfold : maybe_filter_to_n_most_recent_images msgs K C =
      (filterMsgs msgs
        (((imageEntries msgs).length : Int) - (K : Int) -
          (((imageEntries msgs).length : Int) - (K : Int)) %
            (C : Int))).1 := rfl
  have hs := filterMsgs_spec msgs
    (((imageEntries msgs).length : Int) - (K : Int) -
      (((imageEntries msgs).length : Int) - (K : Int)) % (C : Int))
  refine ⟨?_, ?_, ?_⟩
  · rw [hunfold, hs.1]
  · rw [hunfold, hs.1, List.length_drop]
    omega
  · intro hle
    have hneg : ((imageEntries msgs).length : Int) - (K : Int) -
        (((imageEntries msgs).length : Int) - (K : Int)) % (C : Int) ≤
        0 := by
      omega
    rw [hunfold, filterMsgs_id msgs _ hneg]

/-- C6 witness: three tool-result images, keep 1, chunk 2 — the two
oldest are removed. -/
theorem c6_image_retention_witness :
    (0 : Nat) < 1 ∧ (0 : Nat) < 2 ∧
    imageEntries (maybe_filter_to_n_most_recent_images
      [⟨"user", LContent.blocks [⟨LBlockCore.toolResult "t1"
        (TRContentL.list [Json.obj [("type", Json.str "image")],
          Json.obj [("type", Json.str "image")],
          Json.obj [("type", Json.str "image")]]) false, none⟩]⟩] 1 2) =
      [Json.obj [("type", Json.str "image")]] :=
  ⟨by decide, by decide,
    ((c6_image_retention
      [⟨"user", LContent.blocks [⟨LBlockCore.toolResult "t1"
        (TRContentL.list [Json.obj [("type", Json.str "image")],
          Json.obj [("type", Json.str "image")],
          Json.obj [("type", Json.str "image")]]) false, none⟩]⟩] 1 2
      (by decide) (by decide)).1).trans rfl⟩

/-- Marking the last block of a content list whose other blocks are
unmarked yields an exactly-last-marked list. -/
theorem setLastCC_marks (bs : List LBlock) :
    ∀ bs2, setLastCC bs = some bs2 →
      blocksNonLastUnmarked bs = true → blocksLastMarked bs2 = true := by
  induction bs with
  | nil => intro bs2 h; exact absurd h (by simp [setLastCC])
  | cons b rest ih =>
    intro bs2 h hpre
    rcases rest with _ | ⟨c, rest2⟩
    · obtain rfl := Option.some.inj h.symm
      rfl
    · simp only [setLastCC] at h
      rcases hr : setLastCC (c :: rest2) with _ | r2
      · rw [hr] at h; exact absurd h (by simp)
      · rw [hr] at h
        simp only [Option.map_some'] at h
        obtain rfl := Option.some.inj h.symm
        simp only [blocksNonLastUnmarked, Bool.and_eq_true] at hpre
        have hlast := ih r2 hr hpre.2
        rcases r2 with _ | ⟨r2h, r2t⟩
        · exact absurd hlast (by simp [blocksLastMarked])
        · simp only [blocksLastMarked, Bool.and_eq_true]
          exact ⟨hpre.1, hlast⟩

/-- Popping the last marker of a content list whose other blocks are
unmarked yields a fully unmarked list. -/
theorem popLastCC_unmarks (bs : List LBlock) :
    ∀ bs2, popLastCC bs = some bs2 →
      blocksNonLastUnmarked bs = true → blocksUnmarked bs2 = true := by
  induction bs with
  | nil => intro bs2 h; exact absurd h (by simp [popLastCC])
  | cons b rest ih =>
    intro bs2 h hpre
    rcases rest with _ | ⟨c, rest2⟩
    · obtain rfl := Option.some.inj h.symm
      rfl
    · simp only [popLastCC] at h
      rcases hr : popLastCC (c :: rest2) with _ | r2
      · rw [hr] at h; exact absurd h (by simp)
      · rw [hr] at h
        simp only [Option.map_some'] at h
        obtain rfl := Option.some.inj h.symm
        simp only [blocksNonLastUnmarked, Bool.and_eq_true] at hpre
        simp only [blocksUnmarked, Bool.and_eq_true]
        exact ⟨hpre.1, ih r2 hr hpre.2⟩

/-- With no marking budget left, the pre- and post-state checkers
coincide. -/
theorem cachePre0_eq (l : List LMsg) :
    cachePreRev 0 l = cacheOkRev 0 l := by
  induction l with
  | nil => rfl
  | cons m rest ih =>
    rcases m with ⟨role, content⟩
    rcases content with s | bs
    · rw [cachePreRev, cacheOkRev, ih]
    · simp only [cachePreRev, cacheOkRev, ih]
      by_cases hrole : role = "user"
      · simp [hrole]
      · simp [hrole]

/-- Walking the reversed message list with budget `bp`, from a state
where markers sit only on last blocks of the `bp + 1` most recent
user messages, produces exactly-last-marked blocks on the `bp` most
recent user messages and unmarked blocks everywhere older. -/
theorem injectRev_ok (rl : List LMsg) :
    ∀ (bp : Nat) (ro : List LMsg),
      cachePreRev (bp + 1) rl = true →
      injectPromptCachingRev bp rl = some ro →
      cacheOkRev bp ro = true := by
  induction rl with
  | nil =>
    intro bp ro hpre hinj
    obtain rfl := Option.some.inj hinj.symm
    rfl
  | cons m rest ih =>
    intro bp ro hpre hinj
    rcases m with ⟨role, content⟩
    rcases content with s | bs
    · rw [injectPromptCachingRev] at hinj
      rcases hr : injectPromptCachingRev bp rest with _ | r
      · rw [hr] at hinj; exact absurd hinj (by simp)
      · rw [hr] at hinj
        simp only [Option.map_some'] at hinj
        obtain rfl := Option.some.inj hinj.symm
        rw [cachePreRev] at hpre
        rw [cacheOkRev]
        exact ih bp r hpre hr
    · rw [injectPromptCachingRev] at hinj
      dsimp only at hinj
      by_cases hrole : role = "user"
      · rw [if_pos hrole] at hinj
        by_cases hbp : bp = 0
        · subst hbp
          rw [if_neg (by simp)] at hinj
          rcases hp : popLastCC bs with _ | bs2
          · rw [hp] at hinj; exact absurd hinj (by simp)
          · rw [hp] at hinj
            obtain rfl := Option.some.inj hinj.symm
            rw [cachePreRev, if_pos hrole, if_neg (by omega)] at hpre
            simp only [Bool.and_eq_true] at hpre
            rw [cacheOkRev, if_pos hrole, if_pos rfl]
            simp only [Bool.and_eq_true]
            refine ⟨popLastCC_unmarks bs bs2 hp hpre.1, ?_⟩
            rw [← cachePre0_eq]
            exact hpre.2
        · rw [if_pos hbp] at hinj
          rcases hs : setLastCC bs with _ | bs2
          · rw [hs] at hinj; exact absurd hinj (by simp)
          · rw [hs] at hinj
            rcases hr : injectPromptCachingRev (bp - 1) rest with _ | r
            · rw [hr] at hinj; exact absurd hinj (by simp)
            · rw [hr] at hinj
              simp only [Option.map_some'] at hinj
              obtain rfl := Option.some.inj hinj.symm
              rw [cachePreRev, if_pos hrole, if_neg (by omega)] at hpre
              simp only [Bool.and_eq_true] at hpre
              rw [cacheOkRev, if_pos hrole, if_neg hbp]
              simp only [Bool.and_eq_true]
              refine ⟨setLastCC_marks bs bs2 hs hpre.1, ?_⟩
              have hb1 : bp - 1 + 1 = bp := by omega
              refine ih (bp - 1) r ?_ hr
              rw [hb1]
              have : bp + 1 - 1 = bp := by omega
              rw [this] at hpre
              exact hpre.2
      · rw [if_neg hrole] at hinj
        rcases hr : injectPromptCachingRev bp rest with _ | r
        · rw [hr] at hinj; exact absurd hinj (by simp)
        · rw [hr] at hinj
          simp only [Option.map_some'] at hinj
          obtain rfl := Option.some.inj hinj.symm
          rw [cachePreRev, if_neg hrole] at hpre
          rw [cacheOkRev, if_neg hrole]
          exact ih bp r hpre hr

/-- C3 counterexample: a single user message whose first content block
already carries a `cache_control` marker. `_inject_prompt_caching` marks
the last block but leaves the pre-existing marker on the non-last block,
so the marked segments are not exactly the last segments of the most
recent user messages. -/
theorem c3_counterexample :
    inject_prompt_caching
      [⟨"user", LContent.blocks
        [⟨LBlockCore.other Json.null, some ()⟩,
         ⟨LBlockCore.other Json.null, none⟩]⟩] =
      some [⟨"user", LContent.blocks
        [⟨LBlockCore.other Json.null, some ()⟩,
         ⟨LBlockCore.other Json.null, some ()⟩]⟩] ∧
    cacheOkRev 3 ([⟨"user", LContent.blocks
        [⟨LBlockCore.other Json.null, some ()⟩,
         ⟨LBlockCore.other Json.null, some ()⟩]⟩] : List LMsg).reverse =
      false :=
  ⟨rfl, rfl⟩

/-- C3 (amended): provided markers sit only on the last content blocks of
the 4 most recent user messages with list-shaped content (all older
user-message blocks unmarked), one application of
`_inject_prompt_caching` leaves exactly the last content segments of the
3 most recent such user messages marked and everything older unmarked —
so at most 3 user-message content segments carry a marker. The code does
not strip arbitrary pre-existing markers: it pops only the 4th most
recent user message and stops. -/
theorem c3_cache_breakpoints (msgs out : List LMsg)
    (hpre : cachePreRev 4 msgs.reverse = true)
    (hinj : inject_prompt_caching msgs = some out) :
    cacheOkRev 3 out.reverse = true := by
  rw [inject_prompt_caching] at hinj
  rcases hr : injectPromptCachingRev 3 msgs.reverse with _ | ro
  · rw [hr] at hinj; exact absurd hinj (by simp)
  · rw [hr] at hinj
    simp only [Option.map_some'] at hinj
    obtain rfl := Option.some.inj hinj.symm
    rw [List.reverse_reverse]
    exact injectRev_ok msgs.reverse 3 ro hpre hr

/-- C3 witness: a single clean user message gets its (only) last block
marked. -/
theorem c3_cache_breakpoints_witness :
    cachePreRev 4 ([⟨"user", LContent.blocks
      [⟨LBlockCore.other Json.null, none⟩]⟩] : List LMsg).reverse =
      true ∧
    inject_prompt_caching
      [⟨"user", LContent.blocks [⟨LBlockCore.other Json.null, none⟩]⟩] =
      some [⟨"user", LContent.blocks
        [⟨LBlockCore.other Json.null, some ()⟩]⟩] ∧
    cacheOkRev 3 ([⟨"user", LContent.blocks
      [⟨LBlockCore.other Json.null, some ()⟩]⟩] : List LMsg).reverse =
      true :=
  ⟨rfl, rfl, c3_cache_breakpoints
    [⟨"user", LContent.blocks [⟨LBlockCore.other Json.null, none⟩]⟩]
    [⟨"user", LContent.blocks [⟨LBlockCore.other Json.null, some ()⟩]⟩]
    rfl rfl⟩

/-- Field-wise segment matching for the round-trip property: same
constructor and equal `tool_name`, `arguments`, `call_id`, `text`,
thinking content/signature, `images` and `is_error` fields (the fields
the claim lists). -/
def segMatch : Segment → Segment → Prop
  | .text t1 _, .text t2 _ => t1 = t2
  | .thinking c1 s1, .thinking c2 s2 => c1 = c2 ∧ s1 = s2
  | .toolCall n1 a1 i1, .toolCall n2 a2 i2 => n1 = n2 ∧ a1 = a2 ∧ i1 = i2
  | .toolResult i1 _ imgs1 e1 _, .toolResult i2 _ imgs2 e2 _ =>
      i1 = i2 ∧ imgs1 = imgs2 ∧ e1 = e2
  | _, _ => False

/-- Segments the Anthropic encoder represents losslessly: a thinking
signature is not the (dropped) empty string, and tool-call arguments are
dict-shaped as in the source's `Dict[str, Any]` type. -/
def segGoodA : Segment → Prop
  | .thinking _ sig => sig ≠ some ""
  | .toolCall _ args _ => ∃ kvs, args = Json.obj kvs
  | _ => True

/-- Image entries pass through a `tool_result` content list unchanged. -/
theorem trImages_map_image (imgs : List Json) :
    trImages (imgs.map TRItem.image) = imgs := by
  induction imgs with
  | nil => rfl
  | cons i rest ih => rw [List.map_cons, trImages, ih]

theorem trImages_append (a b : List TRItem) :
    trImages (a ++ b) = trImages a ++ trImages b := by
  induction a with
  | nil => rfl
  | cons x rest ih =>
    rcases x with t | s
    · rw [List.cons_append, trImages, trImages, ih]
    · rw [List.cons_append, trImages, trImages, ih, List.cons_append]

theorem c1_anthropic_seg (seg : Segment) (h : segGoodA seg) :
    segMatch (content_block_to_segment (segment_to_beta_content seg))
      seg := by
  rcases seg with ⟨t, ann⟩ | ⟨c, sig⟩ | ⟨n, args, i⟩ | ⟨i, out, imgs, err, sys⟩
  · exact rfl
  · rcases sig with _ | s
    · exact ⟨rfl, rfl⟩
    · have hs : s ≠ "" := fun he => h (by rw [he])
      simp only [segment_to_beta_content, if_neg hs,
        content_block_to_segment]
      exact ⟨rfl, rfl⟩
  · obtain ⟨kvs, rfl⟩ := h
    rcases kvs with _ | ⟨kv, kvs2⟩
    · exact ⟨rfl, rfl, rfl⟩
    · simp only [segment_to_beta_content, content_block_to_segment]
      refine ⟨rfl, ?_, rfl⟩
      rw [if_pos (by simp [Json.truthy])]
  · have key : ∀ textItems : List TRItem, trImages textItems = [] →
        segMatch (content_block_to_segment (BetaBlock.toolResult i
          (if (textItems ++ imgs.map TRItem.image).isEmpty then
            TRContent.str ""
           else TRContent.list (textItems ++ imgs.map TRItem.image)) err))
          (Segment.toolResult i out imgs err sys) := by
      intro textItems htext
      by_cases he : (textItems ++ imgs.map TRItem.image).isEmpty = true
      · rw [if_pos he]
        have himgs : imgs = [] := by
          rcases imgs with _ | ⟨im, imrest⟩
          · rfl
          · simp at he
        subst himgs
        exact ⟨rfl, rfl, rfl⟩
      · rw [if_neg he]
        refine ⟨rfl, ?_, rfl⟩
        show trImages (textItems ++ imgs.map TRItem.image) = imgs
        rw [trImages_append, htext, List.nil_append, trImages_map_image]
    rcases out with _ | t
    · exact key [] rfl
    · by_cases ht : t = ""
      · subst ht
        exact key [] rfl
      · rw [segment_to_beta_content]
        rw [if_neg ht]
        exact key [TRItem.text t] rfl

/-- List lifting of the Anthropic per-segment round trip. -/
theorem c1_anthropic_list (segs : List Segment)
    (h : ∀ s ∈ segs, segGoodA s) :
    List.Forall₂ segMatch
      ((segs.map segment_to_beta_content).map content_block_to_segment)
      segs := by
  induction segs with
  | nil => exact List.Forall₂.nil
  | cons s rest ih =>
    exact List.Forall₂.cons (c1_anthropic_seg s (h s (by simp)))
      (ih fun s2 hs2 => h s2 (by simp [hs2]))

/-- C1 counterexample: the OpenAI encoder emits no message at all for an
assistant message consisting of one thinking segment, so no decode of its
output can yield a matching thinking segment — the round trip loses the
segment entirely. -/
theorem c1_counterexample :
    assistant_segments_to_messages
      ⟨"assistant", [Segment.thinking "reasoning" none], none⟩ 0 =
      ([], 0) ∧
    (List.Forall₂ segMatch ([] : List Segment)
      [Segment.thinking "reasoning" none] → False) :=
  ⟨rfl, fun h => nomatch h⟩

/-- A non-empty serialization: `json.dumps` never returns the empty
string. -/
theorem dumps_ne_empty (v : Json) : Json.dumps v ≠ "" := by
  intro h
  have hl := Json.loads_dumps v
  rw [h] at hl
  have hnone : Json.loads "" = none := rfl
  rw [hnone] at hl
  exact Option.noConfusion hl

/-- The first character of a text is not an opening brace or bracket, so
`_maybe_tool_calls_from_content` will not try to decode it. -/
def headNotBrace (t : String) : Prop :=
  match t.toList with
  | [] => True
  | c :: _ => ¬(c = '{' ∨ c = '[')

/-- Assistant-message shape the OpenAI wire format represents losslessly:
an optional single leading non-empty text that `str.strip` fixes and that
does not look like embedded JSON, followed by tool calls with non-empty
ids and dict-shaped arguments. -/
def OpenaiAsstShape (m : ConversationMessage) : Prop :=
  ∃ pre calls,
    m.segments = pre ++ calls ∧
    (pre = [] ∨ ∃ t ann, pre = [Segment.text t ann] ∧ t ≠ "" ∧
      pyStrip t = t ∧ headNotBrace t) ∧
    (∀ seg ∈ calls, ∃ n kvs i,
      seg = Segment.toolCall n (Json.obj kvs) i ∧ i ≠ "") ∧
    m.segments ≠ []

theorem openaiTextParts_calls (calls : List Segment)
    (h : ∀ seg ∈ calls, ∃ n kvs i,
      seg = Segment.toolCall n (Json.obj kvs) i ∧ i ≠ "") :
    openaiTextParts calls = [] := by
  induction calls with
  | nil => rfl
  | cons seg rest ih =>
    obtain ⟨n, kvs, i, rfl, hi⟩ := h seg (List.mem_cons_self seg rest)
    exact ih fun s hs => h s (List.mem_cons_of_mem _ hs)

/-- A stripped, non-JSON-looking text passes through
`_maybe_tool_calls_from_content` untouched. -/
theorem maybe_tool_calls_benign (t : String) (hstrip : pyStrip t = t)
    (hhead : headNotBrace t) (ctr : Nat) :
    maybe_tool_calls_from_content t ctr = ([], ctr) := by
  rw [maybe_tool_calls_from_content]
  dsimp only
  rw [hstrip]
  rw [headNotBrace] at hhead
  rcases hl : t.toList with _ | ⟨c, cs⟩
  · rfl
  · dsimp only
    rw [hl] at hhead
    rw [if_neg hhead]

/-- `parse_response` content handling of a benign text. -/
theorem contentSegments_text (mp : Json) (t : String) (ctr : Nat)
    (hget : mp.get "content" = some (Json.str t))
    (hstrip : pyStrip t = t) (hhead : headNotBrace t) :
    contentSegments mp ctr =
      (if t = "" then [] else [Segment.text t none], ctr) := by
  rw [contentSegments, hget]
  dsimp only
  rw [maybe_tool_calls_benign t hstrip hhead ctr]
  rfl

/-- Encoding a list of well-formed tool calls and decoding the resulting
`tool_calls` array is the identity, and draws no fresh ids. -/
theorem calls_encode_decode (calls : List Segment) :
    ∀ (ctr ctr0 : Nat),
      (∀ seg ∈ calls, ∃ n kvs i,
        seg = Segment.toolCall n (Json.obj kvs) i ∧ i ≠ "") →
      (assistantToolCalls calls ctr).2 = ctr ∧
      structuredToolCallSegments (assistantToolCalls calls ctr).1 ctr0 =
        some (calls, ctr0) := by
  induction calls with
  | nil => intro ctr ctr0 h; exact ⟨rfl, rfl⟩
  | cons seg rest ih =>
    intro ctr ctr0 h
    obtain ⟨n, kvs, i, hseg, hi⟩ := h seg (List.mem_cons_self seg rest)
    subst hseg
    have hrest := ih ctr ctr0 fun s hs => h s (List.mem_cons_of_mem _ hs)
    have hargs2 : (if (Json.obj kvs).truthy = true then Json.obj kvs
        else Json.obj []) = Json.obj kvs := by
      rcases kvs with _ | ⟨kv, kvs2⟩
      · rfl
      · rw [if_pos
          (show (Json.obj (kv :: kvs2)).truthy = true from rfl)]
    rw [assistantToolCalls]
    dsimp only
    rw [tool_call_to_openai]
    dsimp only
    rw [if_neg hi, hargs2]
    dsimp only
    refine ⟨hrest.1, ?_⟩
    rw [structuredToolCallSegments]
    dsimp only
    have hne : Json.dumps (Json.obj kvs) ≠ "" := dumps_ne_empty _
    have htr : (Json.str (Json.dumps (Json.obj kvs))).truthy = true := by
      simp [Json.truthy, hne]
    have hjor : jOr (some (Json.str (Json.dumps (Json.obj kvs))))
        (Json.str "\x7b\x7d") = Json.str (Json.dumps (Json.obj kvs)) := by
      rw [jOr.eq_def]
      dsimp only
      rw [if_pos htr]
    have hfun : (Json.obj [("id", Json.str i),
        ("type", Json.str "function"),
        ("function", Json.obj [("name", Json.str n),
          ("arguments", Json.str (Json.dumps (Json.obj kvs)))])]).get
        "function" =
        some (Json.obj [("name", Json.str n),
          ("arguments", Json.str (Json.dumps (Json.obj kvs)))]) := rfl
    rw [hfun]
    dsimp only
    have hargsGet : (Json.obj [("name", Json.str n),
        ("arguments", Json.str (Json.dumps (Json.obj kvs)))]).get
        "arguments" = some (Json.str (Json.dumps (Json.obj kvs))) := rfl
    rw [hargsGet, hjor]
    dsimp only
    rw [Json.loads_dumps]
    dsimp only
    have hnameGet : (Json.obj [("name", Json.str n),
        ("arguments", Json.str (Json.dumps (Json.obj kvs)))]).get
        "name" = some (Json.str n) := rfl
    rw [hnameGet]
    dsimp only
    have hidGet : (Json.obj [("id", Json.str i),
        ("type", Json.str "function"),
        ("function", Json.obj [("name", Json.str n),
          ("arguments", Json.str (Json.dumps (Json.obj kvs)))])]).get
        "id" = some (Json.str i) := rfl
    rw [hidGet]
    have hjst : jStrTruthy (some (Json.str i)) = some i := by
      show (if i = "" then none else some i) = some i
      rw [if_neg hi]
    rw [hjst]
    dsimp only
    rw [hrest.2]
    dsimp only
    rw [hargs2]

/-- Assembling `OpenAIAdapter.parse_response` from its three segment
sources on a single-choice synthetic response. -/
theorem parse_of_wire (wireMsg : Json) (ctr ctr1 ctr2 : Nat)
    (segsC segsS : List Segment)
    (hw : wireMsg.truthy = true)
    (hc : contentSegments wireMsg ctr = (segsC, ctr1))
    (hs : structuredToolCallSegments
      (match jOr (wireMsg.get "tool_calls") (Json.arr []) with
        | Json.arr l => l
        | _ => []) ctr1 = some (segsS, ctr2))
    (hf : wireMsg.get "function_call" = none) :
    openaiParseResponse
      (Json.obj [("choices", Json.arr [Json.obj [("message", wireMsg)]])])
      ctr =
      some (⟨"assistant", segsC ++ segsS ++ [], none⟩, ctr2) := by
  unfold openaiParseResponse
  have h1 : jOr ((Json.obj [("choices", Json.arr [Json.obj [("message",
      wireMsg)]])]).get "choices") (Json.arr []) =
      Json.arr [Json.obj [("message", wireMsg)]] := rfl
  rw [h1]
  dsimp only
  have h2 : jOr ((Json.obj [("message", wireMsg)]).get "message")
      (Json.obj []) = wireMsg := by
    rw [show (Json.obj [("message", wireMsg)]).get "message" =
      some wireMsg from rfl, jOr.eq_def]
    dsimp only
    rw [if_pos hw]
  rw [h2, hc]
  dsimp only
  rw [hs]
  dsimp only
  have hfc : functionCallSegments wireMsg ctr2 = some ([], ctr2) := by
    rw [functionCallSegments.eq_def, hf]
  rw [hfc]
  rfl

/-- Pairwise `segMatch` is reflexive on a list of well-formed tool
calls. -/
theorem segMatch_refl_calls (calls : List Segment)
    (h : ∀ seg ∈ calls, ∃ n kvs i,
      seg = Segment.toolCall n (Json.obj kvs) i ∧ i ≠ "") :
    List.Forall₂ segMatch calls calls := by
  induction calls with
  | nil => exact List.Forall₂.nil
  | cons seg rest ih =>
    obtain ⟨n, kvs, i, rfl, _⟩ := h seg (List.mem_cons_self seg rest)
    exact List.Forall₂.cons ⟨rfl, rfl, rfl⟩
      (ih fun s hs => h s (List.mem_cons_of_mem _ hs))

/-- The OpenAI encode/decode round trip on a well-shaped assistant
message: exactly one wire message is emitted, no fresh ids are drawn,
and parsing a synthetic response carrying it back yields field-wise
matching segments in order. -/
theorem c1_openai_roundtrip (m : ConversationMessage) (ctr : Nat)
    (hshape : OpenaiAsstShape m) :
    ∃ wireMsg,
      assistant_segments_to_messages m ctr = ([wireMsg], ctr) ∧
      ∃ m2,
        openaiParseResponse
          (Json.obj [("choices",
            Json.arr [Json.obj [("message", wireMsg)]])]) ctr =
          some (m2, ctr) ∧
        m2.role = "assistant" ∧
        List.Forall₂ segMatch m2.segments m.segments := by
  obtain ⟨pre, calls, hsegs, hpre, hcalls, hne⟩ := hshape
  rcases m with ⟨mrole, msegs, mmeta⟩
  dsimp only at hsegs hne ⊢
  have hrefl := segMatch_refl_calls calls hcalls
  rcases hpre with rfl | ⟨t, ann, rfl, ht, hstrip, hhead⟩
  · -- no leading text
    have hms : msegs = calls := hsegs.trans (List.nil_append calls)
    rw [hms] at hne ⊢
    rcases calls with _ | ⟨c, cs⟩
    · exact absurd rfl hne
    · obtain ⟨n, kvs, i, hc0, hi⟩ := hcalls c (List.mem_cons_self c cs)
      subst hc0
      have henc := calls_encode_decode
        (Segment.toolCall n (Json.obj kvs) i :: cs) ctr ctr hcalls
      have htext : collect_text_segments
          (Segment.toolCall n (Json.obj kvs) i :: cs) = "" := by
        rw [collect_text_segments, openaiTextParts_calls _ hcalls]
        rfl
      refine ⟨Json.obj [("role", Json.str "assistant"),
        ("content", Json.str ""),
        ("tool_calls", Json.arr (assistantToolCalls
          (Segment.toolCall n (Json.obj kvs) i :: cs) ctr).1)], ?_, ?_⟩
      · rw [assistant_segments_to_messages]
        dsimp only
        rw [htext]
        rw [if_neg (fun hcond => Bool.noConfusion hcond.2)]
        rw [henc.1]
        rfl
      · have hc2 : contentSegments (Json.obj [("role",
            Json.str "assistant"), ("content", Json.str ""),
            ("tool_calls", Json.arr (assistantToolCalls
              (Segment.toolCall n (Json.obj kvs) i :: cs) ctr).1)]) ctr =
            ([], ctr) := by
          rw [contentSegments_text (Json.obj [("role",
            Json.str "assistant"), ("content", Json.str ""),
            ("tool_calls", Json.arr (assistantToolCalls
              (Segment.toolCall n (Json.obj kvs) i :: cs) ctr).1)])
            "" ctr rfl rfl True.intro]
          rfl
        have hs2 : structuredToolCallSegments
            (match jOr ((Json.obj [("role", Json.str "assistant"),
              ("content", Json.str ""),
              ("tool_calls", Json.arr (assistantToolCalls
                (Segment.toolCall n (Json.obj kvs) i :: cs) ctr).1)]).get
                "tool_calls") (Json.arr []) with
              | Json.arr l => l
              | _ => []) ctr =
            some (Segment.toolCall n (Json.obj kvs) i :: cs, ctr) :=
          henc.2
        refine ⟨_, parse_of_wire _ ctr ctr ctr _ _ rfl hc2 hs2 rfl,
          rfl, ?_⟩
        dsimp only
        simp only [List.nil_append, List.append_nil]
        exact hrefl
  · -- leading text t
    have hms : msegs = Segment.text t ann :: calls := by
      rw [hsegs]
      rfl
    rw [hms] at hne ⊢
    have htext : collect_text_segments
        (Segment.text t ann :: calls) = t := by
      rw [collect_text_segments, openaiTextParts]
      rw [if_neg ht, openaiTextParts_calls _ hcalls]
      have hint : String.intercalate "\n\n" [t] = t := by
        rcases t with ⟨tdata⟩
        rfl
      rw [hint, hstrip]
    have hats : assistantToolCalls (Segment.text t ann :: calls) ctr =
        assistantToolCalls calls ctr := rfl
    rcases calls with _ | ⟨c, cs⟩
    · -- text only
      refine ⟨Json.obj [("role", Json.str "assistant"),
        ("content", Json.str t)], ?_, ?_⟩
      · rw [assistant_segments_to_messages]
        dsimp only
        rw [htext]
        rw [if_neg (fun hcond => ht hcond.1)]
        rfl
      · have hc2 : contentSegments (Json.obj [("role",
            Json.str "assistant"), ("content", Json.str t)]) ctr =
            ([Segment.text t none], ctr) := by
          rw [contentSegments_text (Json.obj [("role",
            Json.str "assistant"), ("content", Json.str t)]) t ctr rfl
            hstrip hhead, if_neg ht]
        have hs2 : structuredToolCallSegments
            (match jOr ((Json.obj [("role", Json.str "assistant"),
              ("content", Json.str t)]).get "tool_calls")
              (Json.arr []) with
              | Json.arr l => l
              | _ => []) ctr = some ([], ctr) := rfl
        refine ⟨_, parse_of_wire _ ctr ctr ctr _ _ rfl hc2 hs2 rfl,
          rfl, ?_⟩
        dsimp only
        simp only [List.append_nil]
        exact List.Forall₂.cons rfl List.Forall₂.nil
    · -- text and tool calls
      obtain ⟨n, kvs, i, hc0, hi⟩ := hcalls c (List.mem_cons_self c cs)
      subst hc0
      have henc := calls_encode_decode
        (Segment.toolCall n (Json.obj kvs) i :: cs) ctr ctr hcalls
      refine ⟨Json.obj [("role", Json.str "assistant"),
        ("content", Json.str t),
        ("tool_calls", Json.arr (assistantToolCalls
          (Segment.toolCall n (Json.obj kvs) i :: cs) ctr).1)], ?_, ?_⟩
      · rw [assistant_segments_to_messages]
        dsimp only
        rw [htext]
        rw [if_neg (fun hcond => ht hcond.1)]
        rw [show assistantToolCalls
          (Segment.text t ann :: Segment.toolCall n (Json.obj kvs) i ::
            cs) ctr =
          assistantToolCalls
            (Segment.toolCall n (Json.obj kvs) i :: cs) ctr from rfl]
        rw [henc.1]
        rfl
      · have hc2 : contentSegments (Json.obj [("role",
            Json.str "assistant"), ("content", Json.str t),
            ("tool_calls", Json.arr (assistantToolCalls
              (Segment.toolCall n (Json.obj kvs) i :: cs) ctr).1)])
            ctr = ([Segment.text t none], ctr) := by
          rw [contentSegments_text (Json.obj [("role",
            Json.str "assistant"), ("content", Json.str t),
            ("tool_calls", Json.arr (assistantToolCalls
              (Segment.toolCall n (Json.obj kvs) i :: cs) ctr).1)])
            t ctr rfl hstrip hhead, if_neg ht]
        have hs2 : structuredToolCallSegments
            (match jOr ((Json.obj [("role", Json.str "assistant"),
              ("content", Json.str t),
              ("tool_calls", Json.arr (assistantToolCalls
                (Segment.toolCall n (Json.obj kvs) i :: cs) ctr).1)]).get
                "tool_calls") (Json.arr []) with
              | Json.arr l => l
              | _ => []) ctr =
            some (Segment.toolCall n (Json.obj kvs) i :: cs, ctr) :=
          henc.2
        refine ⟨_, parse_of_wire _ ctr ctr ctr _ _ rfl hc2 hs2 rfl,
          rfl, ?_⟩
        dsimp only
        simp only [List.append_nil]
        exact List.Forall₂.cons rfl hrefl

/-- C1 (amended): the per-message round trip holds on the segment shapes
each adapter represents losslessly, comparing the claim's field list
(`segMatch`). Anthropic: for every message whose thinking signatures are
not the empty string and whose tool-call arguments are dict-shaped,
decoding the encoder's blocks yields field-wise matching segments in
order. OpenAI: for every assistant message of an optional leading
non-empty stripped non-JSON-looking text followed by tool calls with
non-empty ids and dict arguments, encoding yields one wire message and
decoding a synthetic response carrying it yields field-wise matching
segments in order, preserving every call_id. Outside these shapes the
round trip fails: the OpenAI encoder drops thinking segments entirely
(see the counterexample) and merges multiple texts. -/
theorem c1_round_trip :
    (∀ m : ConversationMessage, (∀ s ∈ m.segments, segGoodA s) →
      List.Forall₂ segMatch
        ((m.segments.map segment_to_beta_content).map
          content_block_to_segment) m.segments) ∧
    (∀ (m : ConversationMessage) (ctr : Nat), OpenaiAsstShape m →
      ∃ wireMsg,
        assistant_segments_to_messages m ctr = ([wireMsg], ctr) ∧
        ∃ m2,
          openaiParseResponse (Json.obj [("choices",
            Json.arr [Json.obj [("message", wireMsg)]])]) ctr =
            some (m2, ctr) ∧
          m2.role = "assistant" ∧
          List.Forall₂ segMatch m2.segments m.segments) :=
  ⟨fun m h => c1_anthropic_list m.segments h, c1_openai_roundtrip⟩

/-- C1 witness: a four-segment message through the Anthropic pair, and a
text-plus-tool-call assistant message through the OpenAI pair. -/
theorem c1_round_trip_witness :
    List.Forall₂ segMatch
      (([Segment.text "hi" none, Segment.thinking "th" (some "sig"),
        Segment.toolCall "bash" (Json.obj [("command", Json.str "ls")])
          "id1",
        Segment.toolResult "id1" (some "out")
          [Json.obj [("type", Json.str "image")]] false none].map
        segment_to_beta_content).map content_block_to_segment)
      [Segment.text "hi" none, Segment.thinking "th" (some "sig"),
        Segment.toolCall "bash" (Json.obj [("command", Json.str "ls")])
          "id1",
        Segment.toolResult "id1" (some "out")
          [Json.obj [("type", Json.str "image")]] false none] ∧
    (∃ wireMsg,
      assistant_segments_to_messages
        ⟨"assistant", [Segment.text "Run it" none,
          Segment.toolCall "bash"
            (Json.obj [("command", Json.str "ls")]) "call_9"], none⟩ 0 =
        ([wireMsg], 0) ∧
      ∃ m2,
        openaiParseResponse (Json.obj [("choices",
          Json.arr [Json.obj [("message", wireMsg)]])]) 0 =
          some (m2, 0) ∧
        m2.role = "assistant" ∧
        List.Forall₂ segMatch m2.segments
          [Segment.text "Run it" none,
            Segment.toolCall "bash"
              (Json.obj [("command", Json.str "ls")]) "call_9"]) := by
  constructor
  · refine c1_round_trip.1 ⟨"assistant",
      [Segment.text "hi" none, Segment.thinking "th" (some "sig"),
        Segment.toolCall "bash" (Json.obj [("command", Json.str "ls")])
          "id1",
        Segment.toolResult "id1" (some "out")
          [Json.obj [("type", Json.str "image")]] false none],
      none⟩ ?_
    intro s hs
    simp only [List.mem_cons, List.not_mem_nil, or_false] at hs
    rcases hs with rfl | rfl | rfl | rfl
    · exact trivial
    · show some "sig" ≠ some ""
      decide
    · exact ⟨[("command", Json.str "ls")], rfl⟩
    · exact trivial
  · refine c1_round_trip.2 ⟨"assistant",
      [Segment.text "Run it" none,
        Segment.toolCall "bash" (Json.obj [("command", Json.str "ls")])
          "call_9"], none⟩ 0
      ⟨[Segment.text "Run it" none],
        [Segment.toolCall "bash"
          (Json.obj [("command", Json.str "ls")]) "call_9"],
        rfl, Or.inr ⟨"Run it", none, rfl, by decide, rfl, ?_⟩, ?_, ?_⟩
    · show ¬(('R' : Char) = '{' ∨ ('R' : Char) = '[')
      decide
    · intro s hs
      simp only [List.mem_cons, List.not_mem_nil, or_false] at hs
      subst hs
      exact ⟨"bash", [("command", Json.str "ls")], "call_9", rfl,
        by decide⟩
    · simp

end MCPWorld
